import Mathlib

/-!
Verification development for the email-based order ingestion pipeline
(`pfm_web/services/email_sync`): a shallow embedding in Lean 4 of the
Amazon email parser (`email_parser.py`), the Gmail message normalizer
(`gmail_client.py`) and the sync orchestrator (`sync_service.py`),
together with theorems settling the specification claims.

Modelling conventions:
  * Strings are Lean `String`s; the scanners below reimplement, character
    by character, exactly the regular expressions used by the source
    (leftmost search, the greedy/backtracking behaviour of each concrete
    pattern, `re.IGNORECASE` where the source sets it).
  * The BeautifulSoup document produced by `BeautifulSoup(html, "html.parser")`
    is abstracted as a tree value (`Html`); functions that in the source
    receive a soup receive the tree, and the string-to-tree parse step is a
    function parameter `soupOf` where a whole email is processed.
  * Python `datetime` values are `PyDateTime` records; `datetime.now()` is an
    explicit `now` parameter threaded to the functions that call it.
  * Machine floats hold only currency amounts parsed from two-decimal text
    (the `PRICE_PATTERN` group); they are modelled exactly, in integer cents.
-/

/-- Python whitespace class `\s` (also the set stripped by `str.strip` /
`str.split`): space, tab, newline, carriage return, form feed, vertical tab. -/
def isSpaceB (c : Char) : Bool :=
  c == ' ' || c == '\t' || c == '\n' || c == '\r' || c == '\x0c' || c == '\x0b'

/-- Python word class `\w` restricted to ASCII input: letters, digits, underscore. -/
def isWordB (c : Char) : Bool :=
  c.isAlpha || c.isDigit || c == '_'

/-- Characters matched by the class `[\d,]` of the price pattern. -/
def digitCommaB (c : Char) : Bool :=
  c.isDigit || c == ','

/-- Numeric value of a digit string (Python `int` on a `\d+` match). -/
def natOfDigitsL (cs : List Char) : Nat :=
  cs.foldl (fun n c => 10 * n + (c.toNat - 48)) 0

/-- Lowercase a character list (Python `str.lower` on ASCII input). -/
def lowerL (cs : List Char) : List Char := cs.map Char.toLower

/-- Strip leading and trailing whitespace (Python `str.strip`). -/
def stripL (cs : List Char) : List Char :=
  ((cs.dropWhile isSpaceB).reverse.dropWhile isSpaceB).reverse

/-- Whitespace-split into words, dropping empties (Python `str.split()`). -/
def wordsAux : List Char → List Char → List (List Char)
  | [], cur => if cur.isEmpty then [] else [cur.reverse]
  | c :: cs, cur =>
    if isSpaceB c then
      if cur.isEmpty then wordsAux cs [] else cur.reverse :: wordsAux cs []
    else wordsAux cs (c :: cur)

/-- Split on newline keeping empty pieces (Python `str.split("\n")`). -/
def splitOnNl : List Char → List (List Char)
  | [] => [[]]
  | c :: cs =>
    if c == '\n' then [] :: splitOnNl cs
    else
      match splitOnNl cs with
      | l :: ls => (c :: l) :: ls
      | [] => [[c]]

/-- Substring test on character lists (Python `needle in hay`). -/
def hasSubL (needle : List Char) : List Char → Bool
  | [] => needle.isEmpty
  | c :: t => needle.isPrefixOf (c :: t) || hasSubL needle t

/-- Match a literal case-insensitively at the head, returning the remainder
(the way `re.IGNORECASE` matches a literal of the pattern). -/
def stripCI : List Char → List Char → Option (List Char)
  | [], rest => some rest
  | _ :: _, [] => none
  | l :: ls, c :: rest => if c.toLower == l.toLower then stripCI ls rest else none

/-- Leftmost `re.search`: try the position matcher at each suffix. -/
def searchL {α : Type} (m : List Char → Option α) : List Char → Option α
  | [] => m []
  | c :: cs =>
    match m (c :: cs) with
    | some r => some r
    | none => searchL m cs

/-- Exactly `n` digits (`\d{n}`), returning them and the remainder. -/
def digitsExact (n : Nat) (cs : List Char) : Option (List Char × List Char) :=
  let g := cs.take n
  if g.length == n && g.all Char.isDigit then some (g, cs.drop n) else none

/-- Position matcher for `\$?([\d,]+\.\d{2})` (the source `PRICE_PATTERN`):
returns the group-1 characters and the remainder after the match. -/
def matchPriceAt (cs : List Char) : Option (List Char × List Char) :=
  let cs1 := match cs with
    | '$' :: r => r
    | _ => cs
  let run := cs1.takeWhile digitCommaB
  let rest := cs1.drop run.length
  if run.isEmpty then none
  else
    match rest with
    | '.' :: d1 :: d2 :: r2 =>
      if d1.isDigit && d2.isDigit then some (run ++ '.' :: [d1, d2], r2) else none
    | _ => none

/-- Numeric value of a `PRICE_PATTERN` group in integer cents: commas are
stripped, then the integer part and the two decimals are combined (Python
`float(g.replace(",", ""))`; the amounts the source handles are exact
two-decimal values, represented here as cents). -/
def priceVal (g : List Char) : Nat :=
  let g2 := g.filter (fun c => c != ',')
  let ip := g2.takeWhile (fun c => c != '.')
  let fp := (g2.dropWhile (fun c => c != '.')).drop 1
  natOfDigitsL ip * 100 + natOfDigitsL fp

/-- Tail `:?\s*(\d+)` shared by the quantity pattern variants. -/
def qtyTail (r : List Char) : Option (Nat × List Char) :=
  let r1 := match r with
    | ':' :: t => t
    | _ => r
  let r2 := r1.dropWhile isSpaceB
  let ds := r2.takeWhile Char.isDigit
  if ds.isEmpty then none else some (natOfDigitsL ds, r2.drop ds.length)

/-- Position matcher for `(?:Qty|Quantity):?\s*(\d+)` with `re.IGNORECASE`. -/
def matchQtyAt (cs : List Char) : Option (Nat × List Char) :=
  match stripCI ("qty".data) cs with
  | some r => qtyTail r
  | none => (stripCI ("quantity".data) cs).bind qtyTail

/-- Position matcher for the substitution pattern `Qty:?\s*\d+` (IGNORECASE),
returning the remainder after the matched span. -/
def matchQtySubAt (cs : List Char) : Option (List Char) :=
  (stripCI ("qty".data) cs).bind fun r =>
    (qtyTail r).map (fun p => p.2)

/-- Position matcher for the substitution pattern `\$[\d,]+\.\d{2}`
(the `$` is mandatory here), returning the remainder after the match. -/
def matchPriceSubAt (cs : List Char) : Option (List Char) :=
  match cs with
  | '$' :: r =>
    let run := r.takeWhile digitCommaB
    let rest := r.drop run.length
    if run.isEmpty then none
    else
      match rest with
      | '.' :: d1 :: d2 :: r2 => if d1.isDigit && d2.isDigit then some r2 else none
      | _ => none
  | _ => none

/-- Character class `[A-Z0-9]` under `re.IGNORECASE` (letters of either case
and digits). -/
def azClassB (c : Char) : Bool :=
  (c.toLower ≥ 'a' && c.toLower ≤ 'z') || c.isDigit

/-- Position matcher for `ASIN:?\s*([A-Z0-9]{10})` (IGNORECASE): group characters
as they appear in the input, plus the remainder. -/
def matchAsinAt (cs : List Char) : Option (List Char × List Char) :=
  (stripCI ("asin".data) cs).bind fun r =>
    let r1 := match r with
      | ':' :: t => t
      | _ => r
    let r2 := r1.dropWhile isSpaceB
    let g := r2.take 10
    if g.length == 10 && g.all azClassB then some (g, r2.drop 10) else none

/-- Position matcher for the substitution pattern `ASIN:?\s*[A-Z0-9]{10}`. -/
def matchAsinSubAt (cs : List Char) : Option (List Char) :=
  (matchAsinAt cs).map (fun p => p.2)

/-- Position matcher for `Order\s*#?\s*(\d{3}-\d{7}-\d{7})` (IGNORECASE), the
source `ORDER_ID_PATTERN`. -/
def matchOrderIdAt (cs : List Char) : Option (List Char × List Char) :=
  (stripCI ("order".data) cs).bind fun r =>
    let r1 := r.dropWhile isSpaceB
    let r2 := match r1 with
      | '#' :: t => t
      | _ => r1
    let r3 := r2.dropWhile isSpaceB
    (digitsExact 3 r3).bind fun p1 =>
      match p1.2 with
      | '-' :: r5 =>
        (digitsExact 7 r5).bind fun p2 =>
          match p2.2 with
          | '-' :: r7 =>
            (digitsExact 7 r7).map fun p3 =>
              (p1.1 ++ '-' :: p2.1 ++ '-' :: p3.1, p3.2)
          | _ => none
      | _ => none

/-- Position matcher for `Order\s+Date:?\s*(\w+\s+\d+,\s+\d{4})` (IGNORECASE),
the source `DATE_PATTERN`. -/
def matchDateAt (cs : List Char) : Option (List Char × List Char) :=
  (stripCI ("order".data) cs).bind fun r =>
    let sp := r.takeWhile isSpaceB
    if sp.isEmpty then none
    else
      (stripCI ("date".data) (r.drop sp.length)).bind fun r2 =>
        let r3 := match r2 with
          | ':' :: t => t
          | _ => r2
        let r4 := r3.dropWhile isSpaceB
        let w := r4.takeWhile isWordB
        if w.isEmpty then none
        else
          let r5 := r4.drop w.length
          let sp2 := r5.takeWhile isSpaceB
          if sp2.isEmpty then none
          else
            let r6 := r5.drop sp2.length
            let ds := r6.takeWhile Char.isDigit
            if ds.isEmpty then none
            else
              match r6.drop ds.length with
              | ',' :: r7 =>
                let sp3 := r7.takeWhile isSpaceB
                if sp3.isEmpty then none
                else
                  (digitsExact 4 (r7.drop sp3.length)).map fun p =>
                    (w ++ sp2 ++ ds ++ ',' :: sp3 ++ p.1, p.2)
              | _ => none

/-- Tail `:?\s*\$?([\d,]+\.\d{2})` shared by the total patterns. -/
def matchTotalAmountTail (cs : List Char) : Option (List Char × List Char) :=
  let r1 := match cs with
    | ':' :: t => t
    | _ => cs
  matchPriceAt (r1.dropWhile isSpaceB)

/-- Position matcher for `Order\s+Total:?\s*\$?([\d,]+\.\d{2})` (IGNORECASE). -/
def matchOrderTotalAt (cs : List Char) : Option (List Char × List Char) :=
  (stripCI ("order".data) cs).bind fun r =>
    let sp := r.takeWhile isSpaceB
    if sp.isEmpty then none
    else (stripCI ("total".data) (r.drop sp.length)).bind matchTotalAmountTail

/-- Position matcher for `Grand\s+Total:?\s*\$?([\d,]+\.\d{2})` (IGNORECASE). -/
def matchGrandTotalAt (cs : List Char) : Option (List Char × List Char) :=
  (stripCI ("grand".data) cs).bind fun r =>
    let sp := r.takeWhile isSpaceB
    if sp.isEmpty then none
    else (stripCI ("total".data) (r.drop sp.length)).bind matchTotalAmountTail

/-- Position matcher for `Total:?\s*\$?([\d,]+\.\d{2})` (IGNORECASE). -/
def matchTotalAt (cs : List Char) : Option (List Char × List Char) :=
  (stripCI ("total".data) cs).bind matchTotalAmountTail

/-- Position matcher for the text-path total pattern
`(?:Order|Grand)?\s*Total:?\s*\$?([\d,]+\.\d{2})` (IGNORECASE), with the
backtracking order of the optional alternation: `Order`, then `Grand`,
then the empty alternative. -/
def matchCombinedTotalAt (cs : List Char) : Option (List Char × List Char) :=
  let emptyCase :=
    (stripCI ("total".data) (cs.dropWhile isSpaceB)).bind matchTotalAmountTail
  let grandCase :=
    match stripCI ("grand".data) cs with
    | some r2 =>
      match (stripCI ("total".data) (r2.dropWhile isSpaceB)).bind matchTotalAmountTail with
      | some v => some v
      | none => emptyCase
    | none => emptyCase
  match stripCI ("order".data) cs with
  | some r =>
    match (stripCI ("total".data) (r.dropWhile isSpaceB)).bind matchTotalAmountTail with
    | some v => some v
    | none => grandCase
  | none => grandCase

/-- Fuel-indexed `re.sub(pattern, "", s)` driver: at each position, if the
matcher fires the matched span is dropped and scanning resumes after it,
otherwise the character is kept.  Every matcher used with it consumes at
least one character, so fuel `= length` computes the full substitution. -/
def subAllAux (m : List Char → Option (List Char)) : Nat → List Char → List Char
  | 0, cs => cs
  | _ + 1, [] => []
  | fuel + 1, c :: cs =>
    match m (c :: cs) with
    | some rem => subAllAux m fuel rem
    | none => c :: subAllAux m fuel cs

/-- `re.sub(pattern, "", s)` for a never-empty-matching position matcher. -/
def subAll (m : List Char → Option (List Char)) (cs : List Char) : List Char :=
  subAllAux m cs.length cs

/-- Python `datetime` value (microsecond precision). -/
structure PyDateTime where
  year : Nat
  month : Nat
  day : Nat
  hour : Nat := 0
  minute : Nat := 0
  second : Nat := 0
  micro : Nat := 0
deriving DecidableEq, Repr

/-- Full month names, lowercased, as matched by `%B` in `strptime`. -/
def monthsFull : List (List Char) :=
  [("january".data), ("february".data), ("march".data), ("april".data),
   ("may".data), ("june".data), ("july".data), ("august".data),
   ("september".data), ("october".data), ("november".data), ("december".data)]

/-- Abbreviated month names, lowercased, as matched by `%b` in `strptime`. -/
def monthsAbbr : List (List Char) :=
  [("jan".data), ("feb".data), ("mar".data), ("apr".data), ("may".data),
   ("jun".data), ("jul".data), ("aug".data), ("sep".data), ("oct".data),
   ("nov".data), ("dec".data)]

/-- Match one of the month names (case-insensitively) at the head of the
input, returning the 1-based month number and the remainder. -/
def monthAtAux : List (List Char) → Nat → List Char → Option (Nat × List Char)
  | [], _, _ => none
  | n :: ns, i, cs =>
    match stripCI n cs with
    | some r => some (i + 1, r)
    | none => monthAtAux ns (i + 1) cs

/-- The alternatives of the `%d` directive `3[01]|[12]\d|0[1-9]|[1-9]`, in
the alternation order tried by the regex, each with its remainder. -/
def dayCands : List Char → List (Nat × List Char)
  | c1 :: c2 :: r =>
    (if c1 == '3' && (c2 == '0' || c2 == '1') then [(natOfDigitsL [c1, c2], r)] else []) ++
    (if (c1 == '1' || c1 == '2') && c2.isDigit then [(natOfDigitsL [c1, c2], r)] else []) ++
    (if c1 == '0' && c2.isDigit && c2 != '0' then [(natOfDigitsL [c2], r)] else []) ++
    (if c1.isDigit && c1 != '0' then [(natOfDigitsL [c1], c2 :: r)] else [])
  | [c1] => if c1.isDigit && c1 != '0' then [(natOfDigitsL [c1], [])] else []
  | [] => []

/-- Gregorian leap-year rule used by `datetime`. -/
def isLeap (y : Nat) : Bool :=
  y % 4 == 0 && (y % 100 != 0 || y % 400 == 0)

/-- Days in a month, as validated by the `datetime` constructor. -/
def daysInMonth (y m : Nat) : Nat :=
  if m == 2 then (if isLeap y then 29 else 28)
  else if m == 4 || m == 6 || m == 9 || m == 11 then 30
  else 31

/-- `datetime.strptime(s, "<month> %d, %Y")` where the month directive draws
on the given name table: the whole string must be consumed, the day must
satisfy the `%d` pattern, and the assembled date must pass `datetime`
validation (day within month, year at least 1). -/
def strptimeMonDY (tbl : List (List Char)) (s : String) : Option PyDateTime :=
  (monthAtAux tbl 0 s.data).bind fun mp =>
    let sp := mp.2.takeWhile isSpaceB
    if sp.isEmpty then none
    else
      (dayCands (mp.2.drop sp.length)).findSome? fun dp =>
        match dp.2 with
        | ',' :: r4 =>
          let sp2 := r4.takeWhile isSpaceB
          if sp2.isEmpty then none
          else
            (digitsExact 4 (r4.drop sp2.length)).bind fun yp =>
              if yp.2.isEmpty then
                let yv := natOfDigitsL yp.1
                if 1 ≤ yv ∧ dp.1 ≤ daysInMonth yv mp.1 then
                  some { year := yv, month := mp.1, day := dp.1 }
                else none
              else none
        | _ => none

mutual
/-- Abstraction of a parsed HTML document node: the element tree that
`BeautifulSoup(html, "html.parser")` produces.  Text nodes carry their
string; elements carry a tag name and children. -/
inductive Html where
  | txt (s : String)
  | elem (tag : String) (children : HtmlList)
/-- A sequence of sibling HTML nodes. -/
inductive HtmlList where
  | nil
  | cons (head : Html) (tail : HtmlList)
end

/-- A soup: the sequence of top-level nodes of the parsed document. -/
abbrev HtmlDoc := HtmlList

/-- Build an `HtmlList` from a plain list (fixture notation only). -/
def hl : List Html → HtmlList
  | [] => .nil
  | h :: t => .cons h (hl t)

/-- Tag of a node (text nodes have no tag). -/
def tagOf : Html → String
  | .txt _ => ""
  | .elem t _ => t

/-- Children of a node. -/
def childrenOf : Html → HtmlList
  | .txt _ => .nil
  | .elem _ cs => cs

mutual
/-- Text fragments of a node in document order (the strings that
BeautifulSoup `get_text` joins). -/
def textFragsH : Html → List String
  | .txt s => [s]
  | .elem _ cs => textFragsL cs
/-- Text fragments of a node sequence in document order. -/
def textFragsL : HtmlList → List String
  | .nil => []
  | .cons h t => textFragsH h ++ textFragsL t
end

/-- `node.get_text()`: concatenation of all text fragments. -/
def htmlGetText (h : Html) : String := String.join (textFragsH h)

/-- `soup.get_text()` over the whole document. -/
def docGetText (d : HtmlDoc) : String := String.join (textFragsL d)

/-- `node.get_text(strip=True)`: each fragment stripped, empties dropped,
joined with the empty separator. -/
def getTextStrip (h : Html) : String :=
  String.join (((textFragsH h).map (fun s => (⟨stripL s.data⟩ : String))).filter
    (fun s => s ≠ ""))

mutual
/-- All element nodes of a subtree in document order, the node itself
included (the traversal underlying `find_all`). -/
def elemsOf : Html → List Html
  | .txt _ => []
  | .elem t cs => Html.elem t cs :: elemsOfL cs
/-- All element nodes under a node sequence in document order. -/
def elemsOfL : HtmlList → List Html
  | .nil => []
  | .cons h t => elemsOf h ++ elemsOfL t
end

/-- `soup.find_all(tag)`: all elements of the document with the tag. -/
def findAllDoc (d : HtmlDoc) (tag : String) : List Html :=
  (elemsOfL d).filter (fun h => tagOf h == tag)

/-- `node.find_all(tag)`: all strict descendants of the node with the tag. -/
def findAllIn (h : Html) (tag : String) : List Html :=
  (elemsOfL (childrenOf h)).filter (fun x => tagOf x == tag)

/-- Line item extracted from an email (`ParsedOrderItem` dataclass). -/
structure ParsedOrderItem where
  name : String
  quantity : Nat
  price : Nat
  asin : Option String
deriving DecidableEq, Repr

/-- Parsed order extracted from an email (`ParsedAmazonOrder` dataclass). -/
structure ParsedAmazonOrder where
  order_id : String
  order_date : PyDateTime
  items : List ParsedOrderItem
  total_amount : Nat
  currency : String := "USD"
  shipment_status : Option String := none
  tracking_number : Option String := none
deriving DecidableEq, Repr

/-- Python truthiness of an optional string (`None` and the empty string
are falsy). -/
def truthyS : Option String → Bool
  | none => false
  | some s => s != ""

/-- First longest string of a list (Python `max(candidates, key=len)`),
empty string for an empty list. -/
def maxByLen : List String → String
  | [] => ""
  | s :: rest => rest.foldl (fun b x => if x.length > b.length then x else b) s

/-- Final guard of both item constructors: the candidate is kept only when
the cleaned name is non-empty and longer than 5 characters and the price is
positive (`if name and len(name) > 5 and price > 0`). -/
def itemGuard (name : String) (q : Nat) (p : Nat) (a : Option String) :
    Option ParsedOrderItem :=
  if name ≠ "" ∧ 5 < name.length ∧ 0 < p then some ⟨name, q, p, a⟩ else none

/-- `AmazonEmailParser._parse_item_row`: cells are the `td`/`th` descendants
of the row; rows with fewer than two cells and header-looking rows are
rejected; quantity, price and ASIN are extracted from the joined cell text;
the name is the longest cell text with price/quantity spans substituted away
and surrounding whitespace stripped. -/
def parseItemRow (row : Html) : Option ParsedOrderItem :=
  let cells := (elemsOfL (childrenOf row)).filter
    (fun h => tagOf h == "td" || tagOf h == "th")
  if cells.length < 2 then none
  else
    let cellTexts := cells.map getTextStrip
    let text := String.intercalate (" ") cellTexts
    let lt := lowerL text.data
    if hasSubL ("product".data) lt && hasSubL ("price".data) lt then none
    else
      let quantity := match searchL matchQtyAt text.data with
        | some qp => qp.1
        | none => 1
      let price := match searchL matchPriceAt text.data with
        | some pp => priceVal pp.1
        | none => 0
      let asin := (searchL matchAsinAt text.data).map
        (fun ap => (⟨ap.1⟩ : String))
      let name0 := maxByLen cellTexts
      let name1 := subAll matchPriceSubAt name0.data
      let name2 := subAll matchQtySubAt name1
      itemGuard (⟨stripL name2⟩ : String) quantity price asin

/-- `AmazonEmailParser._parse_item_from_text`: price is required, quantity
defaults to 1, ASIN is optional; the name is the text with price, quantity
and ASIN spans substituted away, whitespace-normalized and truncated to 200
characters. -/
def parseItemFromText (text : String) : Option ParsedOrderItem :=
  match searchL matchPriceAt text.data with
  | none => none
  | some pp =>
    let price := priceVal pp.1
    let quantity := match searchL matchQtyAt text.data with
      | some qp => qp.1
      | none => 1
    let asin := (searchL matchAsinAt text.data).map
      (fun ap => (⟨ap.1⟩ : String))
    let n1 := subAll matchPriceSubAt text.data
    let n2 := subAll matchQtySubAt n1
    let n3 := subAll matchAsinSubAt n2
    let name : String := ⟨(List.intercalate ([' ']) (wordsAux n3 [])).take 200⟩
    itemGuard name quantity price asin

/-- Row loop of the tabular strategy: append each parsed row item. -/
def rowsGo : List Html → List ParsedOrderItem → List ParsedOrderItem
  | [], acc => acc
  | r :: rs, acc =>
    match parseItemRow r with
    | some it => rowsGo rs (acc ++ [it])
    | none => rowsGo rs acc

/-- Table loop of the tabular strategy: tables whose text mentions
"product" or "item" contribute their rows. -/
def tablesGo : List Html → List ParsedOrderItem → List ParsedOrderItem
  | [], acc => acc
  | tbl :: rest, acc =>
    let lt := lowerL (htmlGetText tbl).data
    if hasSubL ("product".data) lt || hasSubL ("item".data) lt then
      tablesGo rest (rowsGo (findAllIn tbl ("tr")) acc)
    else tablesGo rest acc

/-- Items produced by strategy 1 (the tabular strategy) alone. -/
def strategy1Items (doc : HtmlDoc) : List ParsedOrderItem :=
  tablesGo (findAllDoc doc ("table")) []

/-- Item candidate of one div under the block strategy: the div text must
contain a price and have length strictly between 10 and 500, and is then
parsed as an item text block. -/
def divCandidate (d : Html) : Option ParsedOrderItem :=
  let dt := htmlGetText d
  match searchL matchPriceAt dt.data with
  | some _ =>
    if 10 < dt.length ∧ dt.length < 500 then parseItemFromText dt else none
  | none => none

/-- Div loop of the block strategy: each div candidate is appended unless an
equal item was already collected. -/
def divsGo : List Html → List ParsedOrderItem → List ParsedOrderItem
  | [], acc => acc
  | d :: ds, acc =>
    match divCandidate d with
    | some it => if it ∈ acc then divsGo ds acc else divsGo ds (acc ++ [it])
    | none => divsGo ds acc

/-- Item candidate of one line under the context-window strategy: a line
containing a price contributes the parse of the window made of the line and
two lines of context on each side. -/
def lineCandidate (lines : List (List Char)) (i : Nat) (ln : List Char) :
    Option ParsedOrderItem :=
  match searchL matchPriceAt ln with
  | some _ =>
    let s := i - 2
    let e := min lines.length (i + 3)
    parseItemFromText (String.intercalate (" ")
      (((lines.drop s).take (e - s)).map (fun l => (⟨l⟩ : String))))
  | none => none

/-- Line loop of the context-window strategy, de-duplicating against
already-collected items. -/
def ctxGo (lines : List (List Char)) :
    Nat → List (List Char) → List ParsedOrderItem → List ParsedOrderItem
  | _, [], acc => acc
  | i, ln :: rest, acc =>
    match lineCandidate lines i ln with
    | some it =>
      if it ∈ acc then ctxGo lines (i + 1) rest acc
      else ctxGo lines (i + 1) rest (acc ++ [it])
    | none => ctxGo lines (i + 1) rest acc

/-- `AmazonEmailParser._extract_items_from_full_text`: scan the flattened
text line by line and cap the result at 20 items. -/
def extractItemsFromFullText (text : String) : List ParsedOrderItem :=
  let lines := splitOnNl text.data
  (ctxGo lines 0 lines []).take 20

/-- `AmazonEmailParser._extract_items`: run the tabular strategy, then the
block strategy over the same accumulator, and fall back to the full-text
scan only when both left the item list empty. -/
def extractItems (doc : HtmlDoc) : List ParsedOrderItem :=
  let s1 := strategy1Items doc
  let s2 := divsGo (findAllDoc doc ("div")) s1
  if s2.isEmpty then extractItemsFromFullText (docGetText doc) else s2

/-- `AmazonEmailParser._extract_total`: three labeled patterns tried in
priority order over the flattened text, default 0.0. -/
def extractTotal (text : String) : Nat :=
  match searchL matchOrderTotalAt text.data with
  | some p => priceVal p.1
  | none =>
    match searchL matchGrandTotalAt text.data with
    | some p => priceVal p.1
    | none =>
      match searchL matchTotalAt text.data with
      | some p => priceVal p.1
      | none => 0

/-- `AmazonEmailParser._extract_shipment_status`: keyword presence in the
lowercased flattened text, checked in priority order, default Pending. -/
def extractShipmentStatus (text : String) : Option String :=
  let lt := lowerL text.data
  if hasSubL ("delivered".data) lt then some ("Delivered")
  else if hasSubL ("shipped".data) lt || hasSubL ("dispatched".data) lt then
    some ("Shipped")
  else if hasSubL ("preparing".data) lt then some ("Preparing")
  else some ("Pending")

/-- The two date formats attempted by `_extract_order_date` on a
`DATE_PATTERN` group, in order: `%B %d, %Y` then `%b %d, %Y`. -/
def recognizedDate (text : String) : Option PyDateTime :=
  (searchL matchDateAt text.data).bind fun gp =>
    match strptimeMonDY monthsFull (⟨gp.1⟩ : String) with
    | some d => some d
    | none => strptimeMonDY monthsAbbr (⟨gp.1⟩ : String)

/-- `AmazonEmailParser._extract_order_date`: labeled date pattern, two
formats in sequence, fallback to the current processing time `now`. -/
def extractOrderDate (now : PyDateTime) (text : String) : PyDateTime :=
  match recognizedDate text with
  | some d => d
  | none => now

/-- `AmazonEmailParser._parse_html` on the parsed document: the order
identifier is the only hard requirement; every other field is extracted
with a default. -/
def parseHtmlDoc (now : PyDateTime) (doc : HtmlDoc) : Option ParsedAmazonOrder :=
  let text := docGetText doc
  match searchL matchOrderIdAt text.data with
  | none => none
  | some op =>
    some { order_id := (⟨op.1⟩ : String)
         , order_date := extractOrderDate now text
         , items := extractItems doc
         , total_amount := extractTotal text
         , currency := "USD"
         , shipment_status := extractShipmentStatus text
         , tracking_number := none }

/-- `AmazonEmailParser._parse_text`: identifier and date extraction as in
the HTML path (but only the full-month format is attempted for the date),
items only via the context-window strategy, total via the combined
pattern. -/
def parseTextStr (now : PyDateTime) (text : String) : Option ParsedAmazonOrder :=
  match searchL matchOrderIdAt text.data with
  | none => none
  | some op =>
    let od := match searchL matchDateAt text.data with
      | some gp =>
        match strptimeMonDY monthsFull (⟨gp.1⟩ : String) with
        | some d => d
        | none => now
      | none => now
    some { order_id := (⟨op.1⟩ : String)
         , order_date := od
         , items := extractItemsFromFullText text
         , total_amount := match searchL matchCombinedTotalAt text.data with
             | some gp => priceVal gp.1
             | none => 0
         , currency := "USD"
         , shipment_status := none
         , tracking_number := none }

/-- `AmazonEmailParser.parse_email`: the HTML path is preferred whenever the
HTML body is truthy, the text path is used when only the text body is
truthy, and the parse fails outright otherwise.  `soupOf` abstracts the
BeautifulSoup string-to-tree parse. -/
def parseEmail (soupOf : String → HtmlDoc) (now : PyDateTime)
    (emailHtml emailText : Option String) : Option ParsedAmazonOrder :=
  if truthyS emailHtml then parseHtmlDoc now (soupOf (emailHtml.getD ""))
  else if truthyS emailText then parseTextStr now (emailText.getD "")
  else none

/-- The visible text scanned for the order identifier by the branch of
`parse_email` that actually runs: the flattened document text on the HTML
path, the raw text on the text path, empty when both bodies are falsy. -/
def visibleText (soupOf : String → HtmlDoc)
    (emailHtml emailText : Option String) : String :=
  if truthyS emailHtml then docGetText (soupOf (emailHtml.getD ""))
  else if truthyS emailText then emailText.getD ""
  else ""

mutual
/-- A node of the Gmail API payload tree as consumed by
`GmailClient._parse_message`: a MIME type, the optional `body.data`
field, and the optional `parts` list (absence of the key is `none`). -/
inductive GmailPart where
  | mk (mimeType : String) (bodyData : Option String) (subparts : GmailParts)
/-- Presence or absence of the `parts` key, with the parts when present. -/
inductive GmailParts where
  | absent
  | present (parts : GmailPartList)
/-- A sequence of sibling MIME parts. -/
inductive GmailPartList where
  | nil
  | cons (head : GmailPart) (tail : GmailPartList)
end

/-- Build a `GmailPartList` from a plain list (fixture notation only). -/
def gpl : List GmailPart → GmailPartList
  | [] => .nil
  | p :: t => .cons p (gpl t)

/-- MIME type of a part. -/
def GmailPart.mime : GmailPart → String
  | .mk m _ _ => m

/-- The `body.data` field of a part. -/
def GmailPart.dataField : GmailPart → Option String
  | .mk _ d _ => d

/-- The `parts` field of a part. -/
def GmailPart.children : GmailPart → GmailParts
  | .mk _ _ s => s

/-- A fetched Gmail message: provider id, header list (in header order,
later duplicates overriding earlier ones in the dict comprehension), and
the payload tree. -/
structure GmailMessage where
  gid : String
  headers : List (String × String)
  payload : GmailPart

/-- Normalized email record produced by the Mail Source Adapter. -/
structure NormalizedEmail where
  gid : String
  message_id : String
  subject : String
  fromAddr : String
  dateStr : String
  body_html : Option String
  body_text : Option String
deriving DecidableEq, Repr

/-- Dict lookup `{h["name"]: h["value"]}.get(k, "")`: the last pair wins. -/
def headerGet (hs : List (String × String)) (k : String) : String :=
  (((hs.reverse.find? (fun kv => kv.1 == k))).map (fun kv => kv.2)).getD ""

/-- Effect of one subpart on the body accumulator inside the inner loop of
`_parse_message`: only `text/html` and `text/plain` subparts with truthy
data are decoded (nothing deeper is examined). -/
def scanStepSub (decode : String → String) (p : GmailPart)
    (acc : Option String × Option String) : Option String × Option String :=
  if p.mime == "text/html" then
    match p.dataField with
    | some s => if s != "" then (some (decode s), acc.2) else acc
    | none => acc
  else if p.mime == "text/plain" then
    match p.dataField with
    | some s => if s != "" then (acc.1, some (decode s)) else acc
    | none => acc
  else acc

/-- Inner loop of `_parse_message` over the subparts of a top-level part. -/
def scanSubGo (decode : String → String) :
    GmailPartList → Option String × Option String → Option String × Option String
  | .nil, acc => acc
  | .cons p ps, acc => scanSubGo decode ps (scanStepSub decode p acc)

/-- Effect of one top-level part on the body accumulator: `text/html` and
`text/plain` parts are decoded; any other part that has a `parts` key has
its immediate subparts scanned by the inner loop. -/
def scanStepTop (decode : String → String) (p : GmailPart)
    (acc : Option String × Option String) : Option String × Option String :=
  if p.mime == "text/html" then
    match p.dataField with
    | some s => if s != "" then (some (decode s), acc.2) else acc
    | none => acc
  else if p.mime == "text/plain" then
    match p.dataField with
    | some s => if s != "" then (acc.1, some (decode s)) else acc
    | none => acc
  else
    match p.children with
    | .present subs => scanSubGo decode subs acc
    | .absent => acc

/-- Outer loop of `_parse_message` over the top-level parts. -/
def scanTopGo (decode : String → String) :
    GmailPartList → Option String × Option String → Option String × Option String
  | .nil, acc => acc
  | .cons p ps, acc => scanTopGo decode ps (scanStepTop decode p acc)

/-- `GmailClient._parse_message`: headers become the normalized fields; the
body is recovered from the top-level parts when a `parts` key is present,
and from the single-part payload otherwise.  `decode` abstracts
`_decode_body` (base64url decode with UTF-8). -/
def parseMessage (decode : String → String) (msg : GmailMessage) : NormalizedEmail :=
  let bodies :=
    match msg.payload.children with
    | .present parts => scanTopGo decode parts (none, none)
    | .absent =>
      match msg.payload.dataField with
      | some s =>
        if s != "" then
          if msg.payload.mime == "text/html" then (some (decode s), none)
          else (none, some (decode s))
        else (none, none)
      | none => (none, none)
  { gid := msg.gid
  , message_id := headerGet msg.headers ("Message-ID")
  , subject := headerGet msg.headers ("Subject")
  , fromAddr := headerGet msg.headers ("From")
  , dateStr := headerGet msg.headers ("Date")
  , body_html := bodies.1
  , body_text := bodies.2 }

mutual
/-- A `text/html` part with truthy data occurs somewhere in the payload
tree, at any multipart depth. -/
def partHasHtmlDeep : GmailPart → Bool
  | .mk m d s =>
    (m == "text/html" && (match d with
      | some v => v != ""
      | none => false)) || partsHaveHtmlDeep s
/-- Deep `text/html` search under a `parts` field. -/
def partsHaveHtmlDeep : GmailParts → Bool
  | .absent => false
  | .present ps => partListHasHtmlDeep ps
/-- Deep `text/html` search in a part sequence. -/
def partListHasHtmlDeep : GmailPartList → Bool
  | .nil => false
  | .cons p ps => partHasHtmlDeep p || partListHasHtmlDeep ps
end

/-- Truthiness of an optional body-data string. -/
def truthyD : Option String → Bool
  | none => false
  | some s => s != ""

/-- One of the subparts is a `text/html` part with truthy data. -/
def subListHasHtml : GmailPartList → Bool
  | .nil => false
  | .cons p ps => (p.mime == "text/html" && truthyD p.dataField) || subListHasHtml ps

/-- One of the subparts is a `text/plain` part with truthy data. -/
def subListHasText : GmailPartList → Bool
  | .nil => false
  | .cons p ps => (p.mime == "text/plain" && truthyD p.dataField) || subListHasText ps

/-- An HTML body is reachable by the code shape of `_parse_message`: a
`text/html` part with truthy data at the top level, or inside the `parts`
of a top-level part whose MIME type is neither `text/html` nor
`text/plain`. -/
def topHasHtml2 : GmailPartList → Bool
  | .nil => false
  | .cons p ps =>
    ((p.mime == "text/html" && truthyD p.dataField) ||
     (p.mime != "text/html" && p.mime != "text/plain" &&
      (match p.children with
        | .present subs => subListHasHtml subs
        | .absent => false))) || topHasHtml2 ps

/-- A plain-text body is reachable by the code shape of `_parse_message`. -/
def topHasText2 : GmailPartList → Bool
  | .nil => false
  | .cons p ps =>
    ((p.mime == "text/plain" && truthyD p.dataField) ||
     (p.mime != "text/html" && p.mime != "text/plain" &&
      (match p.children with
        | .present subs => subListHasText subs
        | .absent => false))) || topHasText2 ps

/-- A message as consumed by the sync loop (the dict produced by the Mail
Source Adapter).  `reconcileError` models the nondeterminism of the
persistence layer inside the per-message `except Exception` handler: when
it is `some msg`, reconciliation of this message raises an exception with
text `msg` before mutating the session. -/
structure EmailMsg where
  message_id : String
  subject : String
  dateStr : String
  body_html : Option String
  body_text : Option String
  reconcileError : Option String := none
deriving DecidableEq, Repr

/-- A persisted `amazon_orders` row, restricted to the mapped columns the
email sync service reads or writes.  The model class in `models.py`
declares no `user_id` column, and `source_type`, `email_message_id` and
`raw_email_html` are not mapped attributes of it either, so none of them is
part of the persisted record. -/
structure OrderRec where
  id : Nat
  order_number : String
  order_date : PyDateTime
  total_amount : Nat
  currency : String
  shipment_status : String
deriving DecidableEq, Repr

/-- A persisted `amazon_order_items` row. -/
structure OrderItemRec where
  amazon_order_id : Nat
  item_name : String
  quantity : Nat
  unit_price : Nat
  total_price : Nat
  asin : Option String
deriving DecidableEq, Repr

/-- A row of the `email_processing_log` audit table. -/
structure LogEntry where
  user_id : Nat
  email_message_id : String
  email_subject : String
  email_date : String
  processing_status : String
  amazon_order_id : Option Nat
  error_message : Option String
  processed_at : PyDateTime
deriving DecidableEq, Repr

/-- The relational state touched by one run: orders, their items, the
processing ledger, and the primary-key counter. -/
structure DbState where
  orders : List OrderRec
  orderItems : List OrderItemRec
  ledger : List LogEntry
  nextId : Nat
deriving DecidableEq, Repr

/-- `EmailSyncService._is_email_processed`: the ledger (as seen by the
session, uncommitted inserts of the same run included) holds an entry for
the message id. -/
def ledgerHas (db : DbState) (m : String) : Bool :=
  db.ledger.any (fun en => en.email_message_id == m)

/-- `AmazonOrder.query.filter_by(order_number=..).first()`. -/
def findOrderByNumber (db : DbState) (num : String) : Option OrderRec :=
  db.orders.find? (fun o => o.order_number == num)

/-- Shipment-status update applied to the first order matching the parsed
order identifier: the status is replaced only when the extracted status is
truthy and differs from the stored one. -/
def updateStatusFirst (po : ParsedAmazonOrder) : List OrderRec → List OrderRec
  | [] => []
  | o :: os =>
    if o.order_number == po.order_id then
      (if truthyS po.shipment_status && (po.shipment_status.getD "") != o.shipment_status
       then { o with shipment_status := po.shipment_status.getD "" }
       else o) :: os
    else o :: updateStatusFirst po os

/-- `EmailSyncService._create_or_update_order`.  If an order with the
extracted identifier exists, only its shipment status may change and the
call reports an update.  Otherwise the source constructs
`AmazonOrder(user_id=self.user_id, ...)`; the model class declares no
`user_id` attribute, so the declarative constructor raises `TypeError`
before any session mutation — the create path never persists an order, and
the provenance-assignment and insert code after the constructor is
unreachable. -/
def createOrUpdateOrderE (uid : Nat) (po : ParsedAmazonOrder) (e : EmailMsg)
    (db : DbState) : Except String (Bool × DbState) :=
  match findOrderByNumber db po.order_id with
  | some _ => .ok (false, { db with orders := updateStatusFirst po db.orders })
  | none => .error "TypeError: user_id is an invalid keyword argument for AmazonOrder"

/-- Reconciliation of one parsed order, with the persistence-exception
oracle of the message applied first (an oracle exception is raised before
any session mutation). -/
def reconcileE (uid : Nat) (po : ParsedAmazonOrder) (e : EmailMsg)
    (db : DbState) : Except String (Bool × DbState) :=
  match e.reconcileError with
  | some m => .error m
  | none => createOrUpdateOrderE uid po e db

/-- `EmailSyncService._log_email_processing`: insert one audit row; the
order reference is resolved from the session by order number when an order
id string is passed, the subject is truncated to 500 characters and the
error text to 1000. -/
def logEmail (now : PyDateTime) (uid : Nat) (e : EmailMsg) (status : String)
    (orderNum : Option String) (err : Option String) (db : DbState) : DbState :=
  let aid : Option Nat :=
    if truthyS orderNum then
      (findOrderByNumber db (orderNum.getD "")).map (fun o => o.id)
    else none
  let entry : LogEntry :=
    { user_id := uid
    , email_message_id := e.message_id
    , email_subject := (⟨e.subject.data.take 500⟩ : String)
    , email_date := e.dateStr
    , processing_status := status
    , amazon_order_id := aid
    , error_message := match err with
        | some s => if s != "" then some (⟨s.data.take 1000⟩ : String) else none
        | none => none
    , processed_at := now }
  { db with ledger := db.ledger ++ [entry] }

/-- Counters and error list returned by a run (`stats` of `sync_orders`). -/
structure RunStats where
  emails_processed : Nat
  orders_created : Nat
  orders_updated : Nat
  orders_skipped : Nat
  errors : List String
deriving DecidableEq, Repr

/-- Zero-initialized run statistics. -/
def initStats : RunStats := ⟨0, 0, 0, 0, []⟩

/-- The in-flight state of one run: statistics plus the session view of
the database (uncommitted writes of the run included). -/
structure RunState where
  stats : RunStats
  session : DbState
deriving DecidableEq, Repr

/-- Body of the per-message loop of `EmailSyncService.sync_orders`: count
the message; skip it when the ledger already has it; otherwise parse,
reconcile and write exactly one audit entry, the per-message `except`
handler turning any parse or reconcile failure into an error entry. -/
def processEmail (soupOf : String → HtmlDoc) (now : PyDateTime) (uid : Nat)
    (e : EmailMsg) (st : RunState) : RunState :=
  let stats := { st.stats with emails_processed := st.stats.emails_processed + 1 }
  if ledgerHas st.session e.message_id then
    { stats := { stats with orders_skipped := stats.orders_skipped + 1 }
    , session := st.session }
  else
    match parseEmail soupOf now e.body_html e.body_text with
    | none =>
      { stats := { stats with errors := stats.errors ++ ["Parse failed: " ++ e.subject] }
      , session := logEmail now uid e ("failed") none (some ("Parse failed")) st.session }
    | some po =>
      match reconcileE uid po e st.session with
      | .error msg =>
        { stats := { stats with errors := stats.errors ++ [msg] }
        , session := logEmail now uid e ("failed") none (some msg) st.session }
      | .ok (created, db1) =>
        let stats2 := if created
          then { stats with orders_created := stats.orders_created + 1 }
          else { stats with orders_updated := stats.orders_updated + 1 }
        { stats := stats2
        , session := logEmail now uid e ("success") (some po.order_id) none db1 }

/-- The message loop of `sync_orders`. -/
def syncLoop (soupOf : String → HtmlDoc) (now : PyDateTime) (uid : Nat) :
    List EmailMsg → RunState → RunState
  | [], st => st
  | e :: es, st => syncLoop soupOf now uid es (processEmail soupOf now uid e st)

/-- `EmailSyncService.sync_orders`: run the loop over the fetched messages
against a session opened on `db0`; commit at the end of a clean run; when
the fetch raised (`fetchErr`), append the run-level error to the stats and
roll the session back, leaving the store as it was. -/
def syncOrders (soupOf : String → HtmlDoc) (now : PyDateTime) (uid : Nat)
    (emails : List EmailMsg) (fetchErr : Option String) (db0 : DbState) :
    RunStats × DbState :=
  let r := syncLoop soupOf now uid emails { stats := initStats, session := db0 }
  match fetchErr with
  | none => (r.stats, r.session)
  | some msg =>
    ({ r.stats with errors := r.stats.errors ++ ["Sync failed: " ++ msg] }, db0)

/-- The run entry point as the CLI drives it (`sync_now`): constructing
`EmailSyncService` loads and refreshes the OAuth credentials and raises on
failure, which the CLI re-raises; once constructed, `sync_orders` never
raises. -/
def runSyncE (soupOf : String → HtmlDoc) (now : PyDateTime) (uid : Nat)
    (authOk : Bool) (emails : List EmailMsg) (fetchErr : Option String)
    (db0 : DbState) : Except String (RunStats × DbState) :=
  if authOk then .ok (syncOrders soupOf now uid emails fetchErr db0)
  else .error "AuthError"

/-- The run raised to its caller. -/
def isRunFailure {α : Type} : Except String α → Bool
  | .error _ => true
  | .ok _ => false

/-- Extraction and reconciliation of a message both succeed against a given
session state: the parse yields an order, the persistence oracle is silent,
and `_create_or_update_order` returns without raising. -/
def msgOk (soupOf : String → HtmlDoc) (now : PyDateTime) (uid : Nat)
    (e : EmailMsg) (db : DbState) : Bool :=
  match parseEmail soupOf now e.body_html e.body_text with
  | none => false
  | some po =>
    match reconcileE uid po e db with
    | .ok _ => true
    | .error _ => false

/-- The audit entries of a ledger for one message id. -/
def entriesFor (led : List LogEntry) (m : String) : List LogEntry :=
  led.filter (fun en => en.email_message_id == m)

/-- Invariant carried by every item either item constructor can return:
positive price (in cents) and a cleaned name longer than 5 characters. -/
def goodItem (it : ParsedOrderItem) : Prop :=
  0 < it.price ∧ 5 < it.name.length

/-- Frame relation of the reconciliation update path: all fields except the
shipment status are unchanged, and the shipment status either is unchanged
or was overwritten with a truthy extracted status that differs from the
stored one. -/
def statusFrameRel (po : ParsedAmazonOrder) (o o2 : OrderRec) : Prop :=
  o2.id = o.id ∧ o2.order_number = o.order_number ∧
  o2.order_date = o.order_date ∧ o2.total_amount = o.total_amount ∧
  o2.currency = o.currency ∧
  (o2.shipment_status = o.shipment_status ∨
    (truthyS po.shipment_status = true ∧
     po.shipment_status = some o2.shipment_status ∧
     o2.shipment_status ≠ o.shipment_status))

/-- Fixture: a document holding a well-formed product table (one item row)
and an ambiguous priced div block, exercising the interplay of the tabular
and block strategies. -/
def docC1 : HtmlDoc := hl
  [Html.elem ("table") (hl
     [Html.txt ("Items"),
      Html.elem ("tr") (hl
        [Html.elem ("td") (hl [Html.txt ("Widget Deluxe Pro")]),
         Html.elem ("td") (hl [Html.txt ("Qty: 2 $19.99")])])]),
   Html.elem ("div") (hl [Html.txt ("Fancy Gadget Thing $5.00")])]

/-- Fixture: a document with an order identifier and a priced div block
whose quantity label reads `Qty: 0`. -/
def docC9 : HtmlDoc := hl
  [Html.txt ("Order #123-4567890-1234567"),
   Html.elem ("div") (hl [Html.txt ("Lovely Trinket Qty: 0 $19.99")])]

/-- Fixture soup function returning `docC9` for any input string. -/
def soupC9 : String → HtmlDoc := fun _ => docC9

/-- Fixture processing time used with `docC9`. -/
def nowC9 : PyDateTime := ⟨2025, 6, 1, 12, 0, 0, 0⟩

/-- Fixture: a document with an order identifier and no recognizable order
date. -/
def docC7 : HtmlDoc := hl [Html.txt ("Order #123-4567890-1234567")]

/-- Fixture soup function returning `docC7` for any input string. -/
def soupC7 : String → HtmlDoc := fun _ => docC7

/-- A first processing time. -/
def nowC7a : PyDateTime := ⟨2025, 3, 1, 9, 0, 0, 0⟩

/-- A second, different processing time. -/
def nowC7b : PyDateTime := ⟨2025, 3, 2, 9, 0, 0, 0⟩

/-- Fixture: a document with an order identifier, a date and a total, for
the identifier-gate witness. -/
def docC6 : HtmlDoc := hl
  [Html.txt ("Order #123-4567890-1234567"),
   Html.txt ("Order Total: $39.98")]

/-- Fixture soup function returning `docC6` for any input string. -/
def soupC6 : String → HtmlDoc := fun _ => docC6

/-- Fixture processing time used with `docC6`. -/
def nowC6 : PyDateTime := ⟨2025, 4, 5, 0, 0, 0, 0⟩

/-- Fixture: a payload whose `text/html` part sits three multipart levels
deep (a nested container inside `multipart/alternative` inside the
top-level `multipart/mixed` parts list). -/
def payloadC8 : GmailPart :=
  .mk ("multipart/mixed") none (.present (gpl
    [.mk ("multipart/alternative") none (.present (gpl
      [.mk ("multipart/related") none (.present (gpl
        [.mk ("text/html") (some ("PGI+ZGVlcDwvYj4=")) .absent]))]))]))

/-- Fixture message carrying `payloadC8`. -/
def msgC8 : GmailMessage :=
  { gid := "g1"
  , headers := [("Message-ID", "<deep@example>"), ("Subject", "Your order")]
  , payload := payloadC8 }

/-- Fixture: a payload with `multipart/alternative` at the top level and
its `text/html` and `text/plain` subparts one level below. -/
def payloadC8w : GmailPart :=
  .mk ("multipart/mixed") none (.present (gpl
    [.mk ("multipart/alternative") none (.present (gpl
      [.mk ("text/plain") (some ("dGV4dA==")) .absent,
       .mk ("text/html") (some ("aHRtbA==")) .absent]))]))

/-- Fixture message carrying `payloadC8w`. -/
def msgC8w : GmailMessage :=
  { gid := "g2"
  , headers := [("Message-ID", "<two@example>"), ("Subject", "Your order")]
  , payload := payloadC8w }

/-- The top-level parts list of `payloadC8w`. -/
def partsC8w : GmailPartList :=
  gpl [.mk ("multipart/alternative") none (.present (gpl
    [.mk ("text/plain") (some ("dGV4dA==")) .absent,
     .mk ("text/html") (some ("aHRtbA==")) .absent]))]

/-- Fixture: an existing persisted order for the frame-property witness. -/
def orderC5 : OrderRec :=
  { id := 7
  , order_number := "123-4567890-1234567"
  , order_date := ⟨2025, 1, 2, 0, 0, 0, 0⟩
  , total_amount := 4200
  , currency := "USD"
  , shipment_status := "Pending" }

/-- Fixture database holding only `orderC5`. -/
def dbC5 : DbState :=
  { orders := [orderC5], orderItems := [], ledger := [], nextId := 8 }

/-- Fixture parsed order for the same identifier with a different total and
a different shipment status. -/
def poC5 : ParsedAmazonOrder :=
  { order_id := "123-4567890-1234567"
  , order_date := ⟨2025, 1, 3, 0, 0, 0, 0⟩
  , items := []
  , total_amount := 9999
  , currency := "USD"
  , shipment_status := some ("Shipped")
  , tracking_number := none }

/-- Fixture message record for the frame-property witness. -/
def emailC5 : EmailMsg :=
  { message_id := "<b@example>"
  , subject := "Your package has shipped"
  , dateStr := "Fri, 03 Jan 2025 00:00:00 +0000"
  , body_html := some ("<html>Shipped</html>")
  , body_text := none
  , reconcileError := none }

/-- Fixture soup function used by the orchestrator witnesses (every string
parses to an empty document). -/
def soupEmpty : String → HtmlDoc := fun _ => HtmlList.nil

/-- Fixture message whose bodies are both absent, so extraction fails. -/
def emailC2 : EmailMsg :=
  { message_id := "<c@example>"
  , subject := "Your Amazon order"
  , dateStr := "Sat, 04 Jan 2025 00:00:00 +0000"
  , body_html := none
  , body_text := none
  , reconcileError := none }

/-- Empty database fixture. -/
def dbEmpty : DbState := { orders := [], orderItems := [], ledger := [], nextId := 1 }

/-- Fixture processing time used by the orchestrator witnesses. -/
def nowC2 : PyDateTime := ⟨2025, 7, 1, 0, 0, 0, 0⟩

/-- The parsed order the extractor returns on `docC9`. -/
def ordC9 : ParsedAmazonOrder :=
  { order_id := "123-4567890-1234567"
  , order_date := nowC9
  , items := [⟨"Lovely Trinket", 0, 1999, none⟩]
  , total_amount := 0
  , currency := "USD"
  , shipment_status := some ("Pending")
  , tracking_number := none }

/-- The parsed order the extractor returns on `docC7` at time `nowC7a`. -/
def ordC7 : ParsedAmazonOrder :=
  { order_id := "123-4567890-1234567"
  , order_date := nowC7a
  , items := []
  , total_amount := 0
  , currency := "USD"
  , shipment_status := some ("Pending")
  , tracking_number := none }

/-- The parsed order the extractor returns on `docC6`. -/
def ordC6 : ParsedAmazonOrder :=
  { order_id := "123-4567890-1234567"
  , order_date := nowC6
  , items := [⟨"Order #123-4567890-1234567Order Total:", 1, 3998, none⟩]
  , total_amount := 3998
  , currency := "USD"
  , shipment_status := some ("Pending")
  , tracking_number := none }

theorem itemGuard_pos {n : String} {q p : Nat} {a : Option String}
    {it : ParsedOrderItem} (h : itemGuard n q p a = some it) :
    goodItem it := by
  unfold itemGuard at h
  split at h
  · rename_i hc
    cases h
    exact ⟨hc.2.2, hc.2.1⟩
  · cases h

theorem parseItemFromText_pos {t : String} {it : ParsedOrderItem}
    (h : parseItemFromText t = some it) : goodItem it := by
  unfold parseItemFromText at h
  split at h
  · cases h
  · exact itemGuard_pos h

theorem parseItemRow_pos {r : Html} {it : ParsedOrderItem}
    (h : parseItemRow r = some it) : goodItem it := by
  unfold parseItemRow at h
  dsimp only at h
  split at h
  · cases h
  · split at h
    · cases h
    · exact itemGuard_pos h

theorem divCandidate_pos {d : Html} {it : ParsedOrderItem}
    (h : divCandidate d = some it) : goodItem it := by
  unfold divCandidate at h
  dsimp only at h
  split at h
  · split at h
    · exact parseItemFromText_pos h
    · cases h
  · cases h

theorem lineCandidate_pos {lines : List (List Char)} {i : Nat}
    {ln : List Char} {it : ParsedOrderItem}
    (h : lineCandidate lines i ln = some it) : goodItem it := by
  unfold lineCandidate at h
  split at h
  · exact parseItemFromText_pos h
  · cases h

theorem rowsGo_good (rows : List Html) :
    ∀ acc, (∀ x ∈ acc, goodItem x) → ∀ x ∈ rowsGo rows acc, goodItem x := by
  induction rows with
  | nil => intro acc ha x hx; exact ha x hx
  | cons r rs ih =>
    intro acc ha x hx
    cases hp : parseItemRow r with
    | none =>
      simp only [rowsGo, hp] at hx
      exact ih acc ha x hx
    | some it =>
      simp only [rowsGo, hp] at hx
      refine ih (acc ++ [it]) ?_ x hx
      intro y hy
      rcases List.mem_append.mp hy with hy | hy
      · exact ha y hy
      · rcases List.mem_singleton.mp hy with rfl
        exact parseItemRow_pos hp

theorem tablesGo_good (tbls : List Html) :
    ∀ acc, (∀ x ∈ acc, goodItem x) → ∀ x ∈ tablesGo tbls acc, goodItem x := by
  induction tbls with
  | nil => intro acc ha x hx; exact ha x hx
  | cons tb rest ih =>
    intro acc ha x hx
    simp only [tablesGo] at hx
    split at hx
    · exact ih _ (rowsGo_good _ acc ha) x hx
    · exact ih acc ha x hx

theorem strategy1Items_good (doc : HtmlDoc) :
    ∀ x ∈ strategy1Items doc, goodItem x := by
  intro x hx
  exact tablesGo_good _ [] (by intro y hy; cases hy) x hx

theorem divsGo_good (ds : List Html) :
    ∀ acc, (∀ x ∈ acc, goodItem x) → ∀ x ∈ divsGo ds acc, goodItem x := by
  induction ds with
  | nil => intro acc ha x hx; exact ha x hx
  | cons d rest ih =>
    intro acc ha x hx
    cases hc : divCandidate d with
    | none =>
      simp only [divsGo, hc] at hx
      exact ih acc ha x hx
    | some it =>
      simp only [divsGo, hc] at hx
      split at hx
      · exact ih acc ha x hx
      · refine ih (acc ++ [it]) ?_ x hx
        intro y hy
        rcases List.mem_append.mp hy with hy | hy
        · exact ha y hy
        · rcases List.mem_singleton.mp hy with rfl
          exact divCandidate_pos hc

theorem ctxGo_good (lines : List (List Char)) (rest : List (List Char)) :
    ∀ i acc, (∀ x ∈ acc, goodItem x) → ∀ x ∈ ctxGo lines i rest acc, goodItem x := by
  induction rest with
  | nil => intro i acc ha x hx; exact ha x hx
  | cons ln rs ih =>
    intro i acc ha x hx
    cases hc : lineCandidate lines i ln with
    | none =>
      simp only [ctxGo, hc] at hx
      exact ih _ acc ha x hx
    | some it =>
      simp only [ctxGo, hc] at hx
      split at hx
      · exact ih _ acc ha x hx
      · refine ih _ (acc ++ [it]) ?_ x hx
        intro y hy
        rcases List.mem_append.mp hy with hy | hy
        · exact ha y hy
        · rcases List.mem_singleton.mp hy with rfl
          exact lineCandidate_pos hc

theorem extractItemsFromFullText_good (text : String) :
    ∀ x ∈ extractItemsFromFullText text, goodItem x := by
  intro x hx
  unfold extractItemsFromFullText at hx
  have := List.take_subset 20 (ctxGo (splitOnNl text.data) 0 (splitOnNl text.data) [])
  exact ctxGo_good _ _ 0 [] (by intro y hy; cases hy) x (this hx)

theorem extractItems_good (doc : HtmlDoc) :
    ∀ x ∈ extractItems doc, goodItem x := by
  intro x hx
  unfold extractItems at hx
  dsimp only at hx
  split at hx
  · exact extractItemsFromFullText_good _ x hx
  · exact divsGo_good _ _ (strategy1Items_good doc) x hx

theorem divsGo_extends (ds : List Html) :
    ∀ acc, ∃ extra, divsGo ds acc = acc ++ extra ∧
      ∀ x ∈ extra, ∃ d, d ∈ ds ∧ divCandidate d = some x := by
  induction ds with
  | nil =>
    intro acc
    exact ⟨[], by simp [divsGo], by intro x hx; cases hx⟩
  | cons d rest ih =>
    intro acc
    cases hc : divCandidate d with
    | none =>
      obtain ⟨extra, he, hall⟩ := ih acc
      refine ⟨extra, by simp [divsGo, hc, he], ?_⟩
      intro x hx
      obtain ⟨d2, hd2, hcd⟩ := hall x hx
      exact ⟨d2, List.mem_cons_of_mem _ hd2, hcd⟩
    | some it =>
      by_cases hmem : it ∈ acc
      · obtain ⟨extra, he, hall⟩ := ih acc
        refine ⟨extra, by simp [divsGo, hc, hmem, he], ?_⟩
        intro x hx
        obtain ⟨d2, hd2, hcd⟩ := hall x hx
        exact ⟨d2, List.mem_cons_of_mem _ hd2, hcd⟩
      · obtain ⟨extra, he, hall⟩ := ih (acc ++ [it])
        refine ⟨it :: extra, ?_, ?_⟩
        · simp [divsGo, hc, hmem, he]
        · intro x hx
          rcases List.mem_cons.mp hx with rfl | hx
          · exact ⟨d, List.mem_cons_self d rest, hc⟩
          · obtain ⟨d2, hd2, hcd⟩ := hall x hx
            exact ⟨d2, List.mem_cons_of_mem _ hd2, hcd⟩

/-- C1: refuted as stated.  On `docC1` the tabular strategy yields one item,
yet the returned list also contains the item of the priced div block: the
block strategy is not skipped when the tabular strategy succeeds. -/
theorem C1_counterexample :
    strategy1Items docC1 = [⟨"Widget Deluxe Pro", 2, 1999, none⟩] ∧
    extractItems docC1 = [⟨"Widget Deluxe Pro", 2, 1999, none⟩,
                          ⟨"Fancy Gadget Thing", 1, 500, none⟩] ∧
    extractItems docC1 ≠ strategy1Items docC1 := by
  refine ⟨by decide, by decide, by decide⟩

/-- C1 (amended): when the tabular strategy yields at least one item the
extractor result begins with exactly the tabular items and is extended only
by block-strategy div candidates (deduplicated); in particular the
context-window strategy contributes nothing in that case. -/
theorem C1_tabular_first (doc : HtmlDoc) (h : strategy1Items doc ≠ []) :
    ∃ extra, extractItems doc = strategy1Items doc ++ extra ∧
      ∀ x ∈ extra, ∃ d, d ∈ findAllDoc doc ("div") ∧ divCandidate d = some x := by
  obtain ⟨extra, he, hall⟩ := divsGo_extends (findAllDoc doc ("div")) (strategy1Items doc)
  refine ⟨extra, ?_, hall⟩
  have hne : (strategy1Items doc ++ extra).isEmpty = false := by
    cases hs : strategy1Items doc with
    | nil => exact absurd hs h
    | cons a l => simp
  unfold extractItems
  dsimp only
  rw [he, hne]
  simp

/-- C1 witness: the amended statement applied to `docC1`. -/
theorem C1_tabular_first_witness :
    strategy1Items docC1 ≠ [] ∧
    (∃ extra, extractItems docC1 = strategy1Items docC1 ++ extra ∧
      ∀ x ∈ extra, ∃ d, d ∈ findAllDoc docC1 ("div") ∧ divCandidate d = some x) :=
  ⟨by decide, C1_tabular_first docC1 (by decide)⟩

/-- C9: refuted as stated.  Parsing `docC9` succeeds and returns an item
whose quantity is 0 (the labeled quantity `Qty: 0` is accepted as-is), so
item quantities are not always positive. -/
theorem C9_counterexample :
    parseEmail soupC9 nowC9 (some ("h")) none = some ordC9 ∧
    (ordC9.items.map (fun it => it.quantity)) = [0] := by
  exact ⟨by decide, by decide⟩

/-- C9 (amended): every item of every order returned by `parse_email` has a
strictly positive unit price (candidates whose price would default to 0.0
are discarded by the guard) and a name longer than 5 characters; the
quantity is a non-negative integer, defaulting to 1 when no quantity label
is recoverable, but a labeled quantity of 0 is accepted. -/
theorem C9_item_bounds (soupOf : String → HtmlDoc) (now : PyDateTime)
    (h t : Option String) (o : ParsedAmazonOrder)
    (hp : parseEmail soupOf now h t = some o) :
    ∀ it ∈ o.items, 0 < it.price ∧ 5 < it.name.length := by
  intro it hit
  unfold parseEmail at hp
  split at hp
  · unfold parseHtmlDoc at hp
    dsimp only at hp
    split at hp
    · cases hp
    · cases hp
      exact extractItems_good _ it hit
  · split at hp
    · unfold parseTextStr at hp
      dsimp only at hp
      split at hp
      · cases hp
      · cases hp
        exact extractItemsFromFullText_good _ it hit
    · cases hp

/-- C9 witness: the amended statement applied to `docC9`. -/
theorem C9_item_bounds_witness :
    parseEmail soupC9 nowC9 (some ("h")) none = some ordC9 ∧
    ∀ it ∈ ordC9.items, 0 < it.price ∧ 5 < it.name.length :=
  ⟨by decide, C9_item_bounds soupC9 nowC9 (some ("h")) none ordC9 (by decide)⟩

/-- C7: refuted as stated.  On the same `(html, text)` input with no
recognizable order date, two invocations at different processing times
return different results: the order date takes the value of the clock. -/
theorem C7_counterexample :
    parseEmail soupC7 nowC7a (some ("h")) none ≠
      parseEmail soupC7 nowC7b (some ("h")) none := by
  decide

/-- C7 (amended): `parse_email` is a deterministic function of the bodies
and the processing clock, and whenever the labeled order date is not
recognized in the visible text the returned order date equals the clock
reading `now`; invocations at different clock readings may therefore
differ in the order date. -/
theorem C7_clock_dependence (soupOf : String → HtmlDoc) (now : PyDateTime)
    (h t : Option String) (o : ParsedAmazonOrder)
    (hd : recognizedDate (visibleText soupOf h t) = none)
    (hp : parseEmail soupOf now h t = some o) :
    o.order_date = now := by
  by_cases hh : truthyS h = true
  · simp only [parseEmail, visibleText, hh, if_true] at hp hd
    unfold parseHtmlDoc at hp
    dsimp only at hp
    split at hp
    · cases hp
    · cases hp
      simp [extractOrderDate, hd]
  · by_cases ht : truthyS t = true
    · simp only [parseEmail, visibleText, hh, ht, if_false, if_true,
        Bool.false_eq_true] at hp hd
      unfold parseTextStr at hp
      dsimp only at hp
      split at hp
      · cases hp
      · cases hp
        dsimp only
        cases hsearch : searchL matchDateAt (t.getD "").data with
        | none => simp [hsearch]
        | some gp =>
          unfold recognizedDate at hd
          rw [hsearch] at hd
          simp only [Option.some_bind] at hd
          cases hfull : strptimeMonDY monthsFull (⟨gp.1⟩ : String) with
          | some d => rw [hfull] at hd; cases hd
          | none => simp [hsearch, hfull]
    · simp only [parseEmail, hh, ht, Bool.false_eq_true, if_false] at hp
      cases hp

/-- C7 witness: the amended statement applied to `docC7` (an order
identifier but no date), showing the order date equals the processing
time passed in. -/
theorem C7_clock_dependence_witness :
    recognizedDate (visibleText soupC7 (some ("h")) none) = none ∧
    parseEmail soupC7 nowC7a (some ("h")) none = some ordC7 ∧
    ordC7.order_date = nowC7a :=
  ⟨by decide, by decide,
   C7_clock_dependence soupC7 nowC7a (some ("h")) none ordC7
     (by decide) (by decide)⟩

/-- C6: confirmed.  `parse_email` fails exactly when the `ORDER_ID_PATTERN`
token does not occur in the visible text of the body it examines (the
flattened HTML text when the HTML body is truthy, the plain text when only
it is truthy, nothing otherwise), and on success the order identifier is
the group of the leftmost match. -/
theorem C6_identifier_gate (soupOf : String → HtmlDoc) (now : PyDateTime)
    (h t : Option String) :
    (parseEmail soupOf now h t = none ↔
      searchL matchOrderIdAt (visibleText soupOf h t).data = none) ∧
    ∀ o, parseEmail soupOf now h t = some o →
      (searchL matchOrderIdAt (visibleText soupOf h t).data).map
        (fun p => (⟨p.1⟩ : String)) = some o.order_id := by
  by_cases hh : truthyS h = true
  · simp only [parseEmail, visibleText, hh, if_true]
    cases hs : searchL matchOrderIdAt (docGetText (soupOf (h.getD ""))).data with
    | none =>
      constructor
      · simp [parseHtmlDoc, hs]
      · intro o ho
        simp [parseHtmlDoc, hs] at ho
    | some p =>
      constructor
      · simp [parseHtmlDoc, hs]
      · intro o ho
        simp only [parseHtmlDoc, hs] at ho
        cases ho
        simp
  · by_cases ht : truthyS t = true
    · simp only [parseEmail, visibleText, hh, ht, Bool.false_eq_true, if_false,
        if_true]
      cases hs : searchL matchOrderIdAt (t.getD "").data with
      | none =>
        constructor
        · simp [parseTextStr, hs]
        · intro o ho
          simp [parseTextStr, hs] at ho
      | some p =>
        constructor
        · simp [parseTextStr, hs]
        · intro o ho
          simp only [parseTextStr, hs] at ho
          cases ho
          simp
    · simp only [parseEmail, visibleText, hh, ht, Bool.false_eq_true, if_false]
      have hnil : searchL matchOrderIdAt (("") : String).data = none := by decide
      constructor
      · simp [hnil]
      · intro o ho
        cases ho

/-- C6 witness: the success direction evaluated on `docC6`. -/
theorem C6_identifier_gate_witness :
    parseEmail soupC6 nowC6 (some ("h")) none = some ordC6 ∧
    (searchL matchOrderIdAt (visibleText soupC6 (some ("h")) none).data).map
      (fun p => (⟨p.1⟩ : String)) = some ordC6.order_id :=
  ⟨by decide,
   (C6_identifier_gate soupC6 nowC6 (some ("h")) none).2 ordC6 (by decide)⟩

theorem scanStepSub_fst_isSome (decode : String → String) (p : GmailPart)
    (acc : Option String × Option String) (h : acc.1.isSome = true) :
    (scanStepSub decode p acc).1.isSome = true := by
  unfold scanStepSub
  repeat' split
  all_goals simp_all

theorem scanStepSub_snd_isSome (decode : String → String) (p : GmailPart)
    (acc : Option String × Option String) (h : acc.2.isSome = true) :
    (scanStepSub decode p acc).2.isSome = true := by
  unfold scanStepSub
  repeat' split
  all_goals simp_all

theorem scanStepSub_fst_of_html (decode : String → String) (p : GmailPart)
    (acc : Option String × Option String)
    (hq : (p.mime == "text/html" && truthyD p.dataField) = true) :
    (scanStepSub decode p acc).1.isSome = true := by
  rw [Bool.and_eq_true] at hq
  obtain ⟨h1, h2⟩ := hq
  cases hd : p.dataField with
  | none => rw [hd] at h2; cases h2
  | some s =>
    rw [hd] at h2
    simp only [truthyD] at h2
    simp [scanStepSub, h1, hd, h2]

theorem scanStepSub_snd_of_text (decode : String → String) (p : GmailPart)
    (acc : Option String × Option String)
    (hq : (p.mime == "text/plain" && truthyD p.dataField) = true) :
    (scanStepSub decode p acc).2.isSome = true := by
  rw [Bool.and_eq_true] at hq
  obtain ⟨h1, h2⟩ := hq
  cases hd : p.dataField with
  | none => rw [hd] at h2; cases h2
  | some s =>
    rw [hd] at h2
    simp only [truthyD] at h2
    by_cases hm : (p.mime == "text/html") = true
    · have hy : p.mime = "text/plain" := (beq_iff_eq (a := p.mime)).mp h1
      have hx : p.mime = "text/html" := (beq_iff_eq (a := p.mime)).mp hm
      rw [hy] at hx
      exact absurd hx (by decide)
    · simp [scanStepSub, hm, h1, hd, h2]

theorem scanSubGo_fst_isSome (decode : String → String) :
    (ps : GmailPartList) → ∀ acc, acc.1.isSome = true →
      (scanSubGo decode ps acc).1.isSome = true
  | .nil => fun _ h => h
  | .cons p ps => fun acc h =>
      scanSubGo_fst_isSome decode ps _ (scanStepSub_fst_isSome decode p acc h)

theorem scanSubGo_snd_isSome (decode : String → String) :
    (ps : GmailPartList) → ∀ acc, acc.2.isSome = true →
      (scanSubGo decode ps acc).2.isSome = true
  | .nil => fun _ h => h
  | .cons p ps => fun acc h =>
      scanSubGo_snd_isSome decode ps _ (scanStepSub_snd_isSome decode p acc h)

theorem scanSubGo_fst_of_has (decode : String → String) :
    (ps : GmailPartList) → subListHasHtml ps = true →
      ∀ acc, (scanSubGo decode ps acc).1.isSome = true
  | .nil, h => by simp [subListHasHtml] at h
  | .cons p ps, h => fun acc => by
      rw [subListHasHtml, Bool.or_eq_true] at h
      rcases h with hq | hrest
      · exact scanSubGo_fst_isSome decode ps _
          (scanStepSub_fst_of_html decode p acc hq)
      · exact scanSubGo_fst_of_has decode ps hrest _

theorem scanSubGo_snd_of_has (decode : String → String) :
    (ps : GmailPartList) → subListHasText ps = true →
      ∀ acc, (scanSubGo decode ps acc).2.isSome = true
  | .nil, h => by simp [subListHasText] at h
  | .cons p ps, h => fun acc => by
      rw [subListHasText, Bool.or_eq_true] at h
      rcases h with hq | hrest
      · exact scanSubGo_snd_isSome decode ps _
          (scanStepSub_snd_of_text decode p acc hq)
      · exact scanSubGo_snd_of_has decode ps hrest _

theorem scanStepTop_fst_isSome (decode : String → String) (p : GmailPart)
    (acc : Option String × Option String) (h : acc.1.isSome = true) :
    (scanStepTop decode p acc).1.isSome = true := by
  unfold scanStepTop
  split
  · split
    · split
      · simp
      · exact h
    · exact h
  · split
    · split
      · split
        · simpa using h
        · exact h
      · exact h
    · split
      · exact scanSubGo_fst_isSome decode _ acc h
      · exact h

theorem scanStepTop_snd_isSome (decode : String → String) (p : GmailPart)
    (acc : Option String × Option String) (h : acc.2.isSome = true) :
    (scanStepTop decode p acc).2.isSome = true := by
  unfold scanStepTop
  split
  · split
    · split
      · simpa using h
      · exact h
    · exact h
  · split
    · split
      · split
        · simp
        · exact h
      · exact h
    · split
      · exact scanSubGo_snd_isSome decode _ acc h
      · exact h

theorem scanStepTop_fst_of_hit (decode : String → String) (p : GmailPart)
    (acc : Option String × Option String)
    (hq : ((p.mime == "text/html" && truthyD p.dataField) ||
           (p.mime != "text/html" && p.mime != "text/plain" &&
            (match p.children with
              | .present subs => subListHasHtml subs
              | .absent => false))) = true) :
    (scanStepTop decode p acc).1.isSome = true := by
  rw [Bool.or_eq_true] at hq
  rcases hq with hq | hq
  · rw [Bool.and_eq_true] at hq
    obtain ⟨h1, h2⟩ := hq
    cases hd : p.dataField with
    | none => rw [hd] at h2; cases h2
    | some s =>
      rw [hd] at h2
      simp only [truthyD] at h2
      simp [scanStepTop, h1, hd, h2]
  · rw [Bool.and_eq_true, Bool.and_eq_true] at hq
    obtain ⟨⟨h1, h2⟩, h3⟩ := hq
    cases hc : p.children with
    | absent => rw [hc] at h3; cases h3
    | present subs =>
      rw [hc] at h3
      have hm1 : (p.mime == "text/html") = false := by
        simpa using h1
      have hm2 : (p.mime == "text/plain") = false := by
        simpa using h2
      simp only [scanStepTop, hm1, hm2, Bool.false_eq_true, if_false, hc]
      exact scanSubGo_fst_of_has decode subs h3 acc

theorem scanStepTop_snd_of_hit (decode : String → String) (p : GmailPart)
    (acc : Option String × Option String)
    (hq : ((p.mime == "text/plain" && truthyD p.dataField) ||
           (p.mime != "text/html" && p.mime != "text/plain" &&
            (match p.children with
              | .present subs => subListHasText subs
              | .absent => false))) = true) :
    (scanStepTop decode p acc).2.isSome = true := by
  rw [Bool.or_eq_true] at hq
  rcases hq with hq | hq
  · rw [Bool.and_eq_true] at hq
    obtain ⟨h1, h2⟩ := hq
    cases hd : p.dataField with
    | none => rw [hd] at h2; cases h2
    | some s =>
      rw [hd] at h2
      simp only [truthyD] at h2
      by_cases hm : (p.mime == "text/html") = true
      · have hx : p.mime = "text/html" := (beq_iff_eq (a := p.mime)).mp hm
        have hy : p.mime = "text/plain" := (beq_iff_eq (a := p.mime)).mp h1
        rw [hy] at hx
        exact absurd hx (by decide)
      · simp [scanStepTop, hm, h1, hd, h2]
  · rw [Bool.and_eq_true, Bool.and_eq_true] at hq
    obtain ⟨⟨h1, h2⟩, h3⟩ := hq
    cases hc : p.children with
    | absent => rw [hc] at h3; cases h3
    | present subs =>
      rw [hc] at h3
      have hm1 : (p.mime == "text/html") = false := by
        simpa using h1
      have hm2 : (p.mime == "text/plain") = false := by
        simpa using h2
      simp only [scanStepTop, hm1, hm2, Bool.false_eq_true, if_false, hc]
      exact scanSubGo_snd_of_has decode subs h3 acc

theorem scanTopGo_fst_isSome (decode : String → String) :
    (ps : GmailPartList) → ∀ acc, acc.1.isSome = true →
      (scanTopGo decode ps acc).1.isSome = true
  | .nil => fun _ h => h
  | .cons p ps => fun acc h =>
      scanTopGo_fst_isSome decode ps _ (scanStepTop_fst_isSome decode p acc h)

theorem scanTopGo_snd_isSome (decode : String → String) :
    (ps : GmailPartList) → ∀ acc, acc.2.isSome = true →
      (scanTopGo decode ps acc).2.isSome = true
  | .nil => fun _ h => h
  | .cons p ps => fun acc h =>
      scanTopGo_snd_isSome decode ps _ (scanStepTop_snd_isSome decode p acc h)

theorem scanTopGo_fst_of_has (decode : String → String) :
    (ps : GmailPartList) → topHasHtml2 ps = true →
      ∀ acc, (scanTopGo decode ps acc).1.isSome = true
  | .nil, h => by simp [topHasHtml2] at h
  | .cons p ps, h => fun acc => by
      rw [topHasHtml2, Bool.or_eq_true] at h
      rcases h with hq | hrest
      · exact scanTopGo_fst_isSome decode ps _
          (scanStepTop_fst_of_hit decode p acc hq)
      · exact scanTopGo_fst_of_has decode ps hrest _

theorem scanTopGo_snd_of_has (decode : String → String) :
    (ps : GmailPartList) → topHasText2 ps = true →
      ∀ acc, (scanTopGo decode ps acc).2.isSome = true
  | .nil, h => by simp [topHasText2] at h
  | .cons p ps, h => fun acc => by
      rw [topHasText2, Bool.or_eq_true] at h
      rcases h with hq | hrest
      · exact scanTopGo_snd_isSome decode ps _
          (scanStepTop_snd_of_hit decode p acc hq)
      · exact scanTopGo_snd_of_has decode ps hrest _

/-- C8: refuted as stated.  The payload `payloadC8` nests its `text/html`
part at multipart depth three; the deep-search predicate sees it, but
`_parse_message` recovers no HTML body because the walk examines only the
top-level parts and one level of subparts. -/
theorem C8_counterexample :
    partHasHtmlDeep payloadC8 = true ∧
    (parseMessage (fun s => s) msgC8).body_html = none := by
  exact ⟨by decide, by decide⟩

/-- C8 (amended): normalization recovers an HTML (resp. plain-text) body
whenever a `text/html` (resp. `text/plain`) part with truthy data occurs at
the top level of the payload parts list, or one level deeper inside a part
whose MIME type is neither `text/html` nor `text/plain`; parts nested
deeper are not examined. -/
theorem C8_depth_two (decode : String → String) (msg : GmailMessage)
    (parts : GmailPartList) (hp : msg.payload.children = .present parts) :
    (topHasHtml2 parts = true →
      (parseMessage decode msg).body_html.isSome = true) ∧
    (topHasText2 parts = true →
      (parseMessage decode msg).body_text.isSome = true) := by
  constructor
  · intro hh
    unfold parseMessage
    dsimp only
    rw [hp]
    exact scanTopGo_fst_of_has decode parts hh (none, none)
  · intro hh
    unfold parseMessage
    dsimp only
    rw [hp]
    exact scanTopGo_snd_of_has decode parts hh (none, none)

/-- C8 witness: the amended statement applied to `msgC8w`, whose bodies sit
one level below the top-level `multipart/alternative` part. -/
theorem C8_depth_two_witness :
    msgC8w.payload.children = GmailParts.present partsC8w ∧
    topHasHtml2 partsC8w = true ∧ topHasText2 partsC8w = true ∧
    (parseMessage (fun s => s) msgC8w).body_html.isSome = true ∧
    (parseMessage (fun s => s) msgC8w).body_text.isSome = true :=
  ⟨rfl, by decide, by decide,
   (C8_depth_two (fun s => s) msgC8w partsC8w rfl).1 (by decide),
   (C8_depth_two (fun s => s) msgC8w partsC8w rfl).2 (by decide)⟩

theorem statusFrameRel_refl (po : ParsedAmazonOrder) (o : OrderRec) :
    statusFrameRel po o o :=
  ⟨rfl, rfl, rfl, rfl, rfl, Or.inl rfl⟩

theorem updateStatusFirst_rel (po : ParsedAmazonOrder) :
    ∀ os : List OrderRec, List.Forall₂ (statusFrameRel po) os (updateStatusFirst po os) := by
  intro os
  induction os with
  | nil => exact List.Forall₂.nil
  | cons o os ih =>
    unfold updateStatusFirst
    split
    · refine List.Forall₂.cons ?_ (List.forall₂_same.mpr (fun x _ => statusFrameRel_refl po x))
      split
      · rename_i hcond
        rw [Bool.and_eq_true] at hcond
        refine ⟨rfl, rfl, rfl, rfl, rfl, Or.inr ⟨hcond.1, ?_, ?_⟩⟩
        · cases hs : po.shipment_status with
          | none => rw [hs] at hcond; cases hcond.1
          | some s => simp [hs]
        · exact bne_iff_ne.mp hcond.2
      · exact statusFrameRel_refl po o
    · exact List.Forall₂.cons (statusFrameRel_refl po o) ih

/-- C5: confirmed.  When an order with the extracted identifier already
exists, reconciliation reports an update, leaves the item table, the
ledger and the id counter untouched, and relates old and new order lists
pointwise so that only the shipment status of the matched order can change,
and only to a truthy extracted status that differs from the stored one. -/
theorem C5_first_write_wins (uid : Nat) (po : ParsedAmazonOrder) (e : EmailMsg)
    (db : DbState) (hex : (findOrderByNumber db po.order_id).isSome = true) :
    ∃ db2, createOrUpdateOrderE uid po e db = .ok (false, db2) ∧
      db2.orderItems = db.orderItems ∧
      db2.ledger = db.ledger ∧
      db2.nextId = db.nextId ∧
      List.Forall₂ (statusFrameRel po) db.orders db2.orders := by
  obtain ⟨x, hx⟩ := Option.isSome_iff_exists.mp hex
  refine ⟨{ db with orders := updateStatusFirst po db.orders },
    ?_, rfl, rfl, rfl, updateStatusFirst_rel po db.orders⟩
  simp [createOrUpdateOrderE, hx]

/-- C5 witness: the frame statement applied to a store holding one order
with total 4200 cents and an update email carrying a different total. -/
theorem C5_first_write_wins_witness :
    (findOrderByNumber dbC5 poC5.order_id).isSome = true ∧
    (∃ db2, createOrUpdateOrderE 1 poC5 emailC5 dbC5 = .ok (false, db2) ∧
      db2.orderItems = dbC5.orderItems ∧
      db2.ledger = dbC5.ledger ∧
      db2.nextId = dbC5.nextId ∧
      List.Forall₂ (statusFrameRel poC5) dbC5.orders db2.orders) :=
  ⟨by decide, C5_first_write_wins 1 poC5 emailC5 dbC5 (by decide)⟩

theorem syncLoop_append (soupOf : String → HtmlDoc) (now : PyDateTime) (uid : Nat)
    (xs ys : List EmailMsg) (st : RunState) :
    syncLoop soupOf now uid (xs ++ ys) st =
      syncLoop soupOf now uid ys (syncLoop soupOf now uid xs st) := by
  induction xs generalizing st with
  | nil => rfl
  | cons e es ih => simp [syncLoop, ih]

theorem createOrUpdate_ledger (uid : Nat) (po : ParsedAmazonOrder) (e : EmailMsg)
    (db : DbState) : ∀ {b : Bool} {db2 : DbState},
    createOrUpdateOrderE uid po e db = .ok (b, db2) → db2.ledger = db.ledger := by
  intro b db2 h
  unfold createOrUpdateOrderE at h
  split at h
  · cases h; rfl
  · cases h

theorem reconcile_ledger (uid : Nat) (po : ParsedAmazonOrder) (e : EmailMsg)
    (db : DbState) : ∀ {b : Bool} {db2 : DbState},
    reconcileE uid po e db = .ok (b, db2) → db2.ledger = db.ledger := by
  intro b db2 h
  unfold reconcileE at h
  split at h
  · cases h
  · exact createOrUpdate_ledger uid po e db h

theorem processEmail_skip (soupOf : String → HtmlDoc) (now : PyDateTime)
    (uid : Nat) (e : EmailMsg) (st : RunState)
    (h : ledgerHas st.session e.message_id = true) :
    processEmail soupOf now uid e st =
      { stats := { st.stats with
          emails_processed := st.stats.emails_processed + 1,
          orders_skipped := st.stats.orders_skipped + 1 }
      , session := st.session } := by
  simp [processEmail, h]

theorem logEmail_ledger (now : PyDateTime) (uid : Nat) (e : EmailMsg)
    (status : String) (onum : Option String) (err : Option String) (db : DbState) :
    ∃ en : LogEntry, (logEmail now uid e status onum err db).ledger = db.ledger ++ [en] ∧
      en.email_message_id = e.message_id ∧ en.processing_status = status := by
  exact ⟨_, rfl, rfl, rfl⟩

theorem processEmail_fresh (soupOf : String → HtmlDoc) (now : PyDateTime)
    (uid : Nat) (e : EmailMsg) (st : RunState)
    (h : ledgerHas st.session e.message_id = false) :
    ∃ en : LogEntry,
      (processEmail soupOf now uid e st).session.ledger
        = st.session.ledger ++ [en] ∧
      en.email_message_id = e.message_id ∧
      (en.processing_status = "success" ↔
        msgOk soupOf now uid e st.session = true) := by
  unfold processEmail
  simp only [h, Bool.false_eq_true, if_false]
  cases hp : parseEmail soupOf now e.body_html e.body_text with
  | none =>
    dsimp only
    refine ⟨_, rfl, rfl, ?_⟩
    constructor
    · intro hs
      have hf : ("failed" : String) = "success" := hs
      exact absurd hf (by decide)
    · intro hm
      unfold msgOk at hm
      rw [hp] at hm
      have hf : (false : Bool) = true := hm
      exact absurd hf (by decide)
  | some po =>
    dsimp only
    cases hr : reconcileE uid po e st.session with
    | error msg =>
      dsimp only
      refine ⟨_, rfl, rfl, ?_⟩
      constructor
      · intro hs
        have hf : ("failed" : String) = "success" := hs
        exact absurd hf (by decide)
      · intro hm
        unfold msgOk at hm
        rw [hp] at hm
        have h2 : (match reconcileE uid po e st.session with
          | .ok _ => true
          | .error _ => false) = true := hm
        rw [hr] at h2
        have hf : (false : Bool) = true := h2
        exact absurd hf (by decide)
    | ok pr =>
      obtain ⟨created, db1⟩ := pr
      dsimp only
      obtain ⟨en, hl, hid, hst⟩ :=
        logEmail_ledger now uid e ("success") (some po.order_id) none db1
      refine ⟨en, ?_, hid, ?_⟩
      · rw [hl, reconcile_ledger uid po e st.session hr]
      · rw [hst]
        constructor
        · intro _
          unfold msgOk
          rw [hp]
          show (match reconcileE uid po e st.session with
            | .ok _ => true
            | .error _ => false) = true
          rw [hr]
        · intro _; rfl

theorem processEmail_ledger_mono (soupOf : String → HtmlDoc) (now : PyDateTime)
    (uid : Nat) (e : EmailMsg) (st : RunState) (m : String)
    (h : ledgerHas st.session m = true) :
    ledgerHas (processEmail soupOf now uid e st).session m = true := by
  cases hb : ledgerHas st.session e.message_id with
  | true => rw [processEmail_skip soupOf now uid e st hb]; exact h
  | false =>
    obtain ⟨en, hl, _, _⟩ := processEmail_fresh soupOf now uid e st hb
    unfold ledgerHas at h ⊢
    rw [hl, List.any_append, h]
    rfl

theorem processEmail_has_self (soupOf : String → HtmlDoc) (now : PyDateTime)
    (uid : Nat) (e : EmailMsg) (st : RunState) :
    ledgerHas (processEmail soupOf now uid e st).session e.message_id = true := by
  cases hb : ledgerHas st.session e.message_id with
  | true => rw [processEmail_skip soupOf now uid e st hb]; exact hb
  | false =>
    obtain ⟨en, hl, hid, _⟩ := processEmail_fresh soupOf now uid e st hb
    unfold ledgerHas
    rw [hl, List.any_append]
    simp [hid]

theorem syncLoop_ledger_mono (soupOf : String → HtmlDoc) (now : PyDateTime)
    (uid : Nat) (emails : List EmailMsg) : ∀ (st : RunState) (m : String),
    ledgerHas st.session m = true →
      ledgerHas (syncLoop soupOf now uid emails st).session m = true := by
  induction emails with
  | nil => intro st m h; exact h
  | cons e es ih =>
    intro st m h
    exact ih _ m (processEmail_ledger_mono soupOf now uid e st m h)

theorem syncLoop_has_all (soupOf : String → HtmlDoc) (now : PyDateTime)
    (uid : Nat) (emails : List EmailMsg) : ∀ (st : RunState),
    ∀ e ∈ emails,
      ledgerHas (syncLoop soupOf now uid emails st).session e.message_id = true := by
  induction emails with
  | nil => intro st e he; cases he
  | cons x xs ih =>
    intro st e he
    simp only [syncLoop]
    rcases List.mem_cons.mp he with rfl | he
    · exact syncLoop_ledger_mono soupOf now uid xs _ _
        (processEmail_has_self soupOf now uid e st)
    · exact ih _ e he

theorem syncLoop_all_skipped (soupOf : String → HtmlDoc) (now : PyDateTime)
    (uid : Nat) (emails : List EmailMsg) : ∀ (st : RunState),
    (∀ e ∈ emails, ledgerHas st.session e.message_id = true) →
    (syncLoop soupOf now uid emails st).stats.orders_created = st.stats.orders_created ∧
    (syncLoop soupOf now uid emails st).stats.orders_updated = st.stats.orders_updated ∧
    (syncLoop soupOf now uid emails st).stats.orders_skipped
      = st.stats.orders_skipped + emails.length ∧
    (syncLoop soupOf now uid emails st).stats.emails_processed
      = st.stats.emails_processed + emails.length ∧
    (syncLoop soupOf now uid emails st).session = st.session := by
  induction emails with
  | nil => intro st _; exact ⟨rfl, rfl, rfl, rfl, rfl⟩
  | cons e es ih =>
    intro st h
    have hskip := processEmail_skip soupOf now uid e st (h e (List.mem_cons_self e es))
    have hsub : ∀ x ∈ es,
        ledgerHas (processEmail soupOf now uid e st).session x.message_id = true := by
      intro x hx
      rw [hskip]
      exact h x (List.mem_cons_of_mem _ hx)
    obtain ⟨h1, h2, h3, h4, h5⟩ := ih (processEmail soupOf now uid e st) hsub
    simp only [syncLoop]
    refine ⟨?_, ?_, ?_, ?_, ?_⟩
    · rw [h1, hskip]
    · rw [h2, hskip]
    · rw [h3, hskip]
      simp only [List.length_cons]
      omega
    · rw [h4, hskip]
      simp only [List.length_cons]
      omega
    · rw [h5, hskip]

/-- C4: confirmed.  After a completed first run over a mailbox, a second
run over the same fetched messages (at any later processing time) creates
and updates nothing: every message is counted once as processed and once as
skipped. -/
theorem C4_idempotent (soupOf : String → HtmlDoc) (now1 now2 : PyDateTime)
    (uid : Nat) (emails : List EmailMsg) (db0 : DbState) :
    (syncOrders soupOf now2 uid emails none
        (syncOrders soupOf now1 uid emails none db0).2).1.orders_created = 0 ∧
    (syncOrders soupOf now2 uid emails none
        (syncOrders soupOf now1 uid emails none db0).2).1.orders_updated = 0 ∧
    (syncOrders soupOf now2 uid emails none
        (syncOrders soupOf now1 uid emails none db0).2).1.orders_skipped
      = emails.length ∧
    (syncOrders soupOf now2 uid emails none
        (syncOrders soupOf now1 uid emails none db0).2).1.emails_processed
      = emails.length := by
  unfold syncOrders
  dsimp only
  have hcover : ∀ e ∈ emails,
      ledgerHas (syncLoop soupOf now1 uid emails
        { stats := initStats, session := db0 }).session e.message_id = true :=
    fun e he => syncLoop_has_all soupOf now1 uid emails _ e he
  obtain ⟨h1, h2, h3, h4, _⟩ :=
    syncLoop_all_skipped soupOf now2 uid emails
      { stats := initStats
      , session := (syncLoop soupOf now1 uid emails
          { stats := initStats, session := db0 }).session }
      hcover
  refine ⟨?_, ?_, ?_, ?_⟩
  · rw [h1]
    rfl
  · rw [h2]
    rfl
  · rw [h3]
    simp [initStats]
  · rw [h4]
    simp [initStats]

theorem processEmail_inv (soupOf : String → HtmlDoc) (now : PyDateTime)
    (uid : Nat) (e : EmailMsg) (st : RunState)
    (h : st.stats.emails_processed = st.stats.orders_created +
      st.stats.orders_updated + st.stats.orders_skipped + st.stats.errors.length) :
    (processEmail soupOf now uid e st).stats.emails_processed =
      (processEmail soupOf now uid e st).stats.orders_created +
      (processEmail soupOf now uid e st).stats.orders_updated +
      (processEmail soupOf now uid e st).stats.orders_skipped +
      (processEmail soupOf now uid e st).stats.errors.length := by
  unfold processEmail
  dsimp only
  split
  · dsimp only
    omega
  · split
    · dsimp only
      rw [List.length_append]
      dsimp only [List.length_cons, List.length_nil]
      omega
    · split
      · dsimp only
        rw [List.length_append]
        dsimp only [List.length_cons, List.length_nil]
        omega
      · split
        · dsimp only
          omega
        · dsimp only
          omega

theorem syncLoop_inv (soupOf : String → HtmlDoc) (now : PyDateTime)
    (uid : Nat) (emails : List EmailMsg) : ∀ (st : RunState),
    st.stats.emails_processed = st.stats.orders_created +
      st.stats.orders_updated + st.stats.orders_skipped + st.stats.errors.length →
    (syncLoop soupOf now uid emails st).stats.emails_processed =
      (syncLoop soupOf now uid emails st).stats.orders_created +
      (syncLoop soupOf now uid emails st).stats.orders_updated +
      (syncLoop soupOf now uid emails st).stats.orders_skipped +
      (syncLoop soupOf now uid emails st).stats.errors.length := by
  induction emails with
  | nil => intro st h; exact h
  | cons e es ih =>
    intro st h
    exact ih _ (processEmail_inv soupOf now uid e st h)

/-- C10: confirmed.  For every completed (non-aborted) run, the number of
processed messages equals the number created plus updated plus skipped plus
the number of per-message error entries. -/
theorem C10_counter_sum (soupOf : String → HtmlDoc) (now : PyDateTime)
    (uid : Nat) (emails : List EmailMsg) (db0 : DbState) :
    (syncOrders soupOf now uid emails none db0).1.emails_processed =
      (syncOrders soupOf now uid emails none db0).1.orders_created +
      (syncOrders soupOf now uid emails none db0).1.orders_updated +
      (syncOrders soupOf now uid emails none db0).1.orders_skipped +
      (syncOrders soupOf now uid emails none db0).1.errors.length := by
  unfold syncOrders
  dsimp only
  exact syncLoop_inv soupOf now uid emails
    { stats := initStats, session := db0 } rfl

theorem processEmail_processed (soupOf : String → HtmlDoc) (now : PyDateTime)
    (uid : Nat) (e : EmailMsg) (st : RunState) :
    (processEmail soupOf now uid e st).stats.emails_processed =
      st.stats.emails_processed + 1 := by
  unfold processEmail
  dsimp only
  split
  · rfl
  · split
    · rfl
    · split
      · rfl
      · split
        · rfl
        · rfl

theorem syncLoop_processed (soupOf : String → HtmlDoc) (now : PyDateTime)
    (uid : Nat) (emails : List EmailMsg) : ∀ (st : RunState),
    (syncLoop soupOf now uid emails st).stats.emails_processed =
      st.stats.emails_processed + emails.length := by
  induction emails with
  | nil => intro st; rfl
  | cons e es ih =>
    intro st
    simp only [syncLoop]
    rw [ih _, processEmail_processed soupOf now uid e st]
    simp only [List.length_cons]
    omega

/-- C3: refuted as stated.  A provider fetch failure does not propagate to
the caller: `sync_orders` catches it, rolls the session back and returns
normally with a run-level error appended to the statistics, as the concrete
run below shows. -/
theorem C3_counterexample :
    runSyncE soupEmpty nowC2 1 true [] (some ("boom")) dbEmpty =
      Except.ok (⟨0, 0, 0, 0, ["Sync failed: boom"]⟩, dbEmpty) ∧
    isRunFailure (runSyncE soupEmpty nowC2 1 true [] (some ("boom")) dbEmpty)
      = false := by
  exact ⟨rfl, rfl⟩

/-- C3 (amended): per-message problems never make the run raise and a clean
run returns complete statistics; an authentication failure at service
construction does propagate as a run-level failure; a provider search or
fetch failure does NOT propagate: the run still returns statistics covering
every pulled message, with a trailing run-level `Sync failed` error, and the
store is rolled back to its pre-run state (so only previously committed
progress survives). -/
theorem C3_containment (soupOf : String → HtmlDoc) (now : PyDateTime) (uid : Nat)
    (emails : List EmailMsg) (msg : String) (db0 : DbState) :
    runSyncE soupOf now uid false emails (some msg) db0 = Except.error "AuthError" ∧
    (∃ st db1, runSyncE soupOf now uid true emails none db0 = Except.ok (st, db1) ∧
      st.emails_processed = emails.length) ∧
    (∃ st, runSyncE soupOf now uid true emails (some msg) db0 = Except.ok (st, db0) ∧
      st.emails_processed = emails.length ∧
      st.errors.getLast? = some ("Sync failed: " ++ msg)) := by
  refine ⟨rfl, ?_, ?_⟩
  · refine ⟨_, _, rfl, ?_⟩
    show (syncOrders soupOf now uid emails none db0).1.emails_processed
      = emails.length
    unfold syncOrders
    dsimp only
    rw [syncLoop_processed]
    simp [initStats]
  · refine ⟨_, rfl, ?_, ?_⟩
    · show (syncOrders soupOf now uid emails (some msg) db0).1.emails_processed
        = emails.length
      unfold syncOrders
      dsimp only
      rw [syncLoop_processed]
      simp [initStats]
    · show (syncOrders soupOf now uid emails (some msg) db0).1.errors.getLast?
        = some ("Sync failed: " ++ msg)
      unfold syncOrders
      dsimp only
      rw [List.getLast?_append_cons]
      rfl

theorem entriesFor_append (l1 l2 : List LogEntry) (m : String) :
    entriesFor (l1 ++ l2) m = entriesFor l1 m ++ entriesFor l2 m := by
  unfold entriesFor
  simp [List.filter_append]

theorem entriesFor_nil_of (l : List LogEntry) (m : String)
    (h : ∀ en ∈ l, en.email_message_id ≠ m) : entriesFor l m = [] := by
  induction l with
  | nil => rfl
  | cons en l ih =>
    unfold entriesFor at ih ⊢
    rw [List.filter_cons]
    have hc : (en.email_message_id == m) = false := by
      simpa using h en (List.mem_cons_self en l)
    simp only [hc, Bool.false_eq_true, if_false]
    exact ih (fun x hx => h x (List.mem_cons_of_mem _ hx))

theorem ledgerHas_false_entries (db : DbState) (m : String)
    (h : ledgerHas db m = false) : entriesFor db.ledger m = [] := by
  refine entriesFor_nil_of _ m ?_
  intro en hen heq
  have htrue : ledgerHas db m = true := by
    unfold ledgerHas
    rw [List.any_eq_true]
    exact ⟨en, hen, by simp [heq]⟩
  rw [h] at htrue
  cases htrue

theorem syncLoop_ledger_suffix (soupOf : String → HtmlDoc) (now : PyDateTime)
    (uid : Nat) (emails : List EmailMsg) : ∀ (st : RunState),
    ∃ tail, (syncLoop soupOf now uid emails st).session.ledger
        = st.session.ledger ++ tail ∧
      ∀ en ∈ tail, ∃ x, x ∈ emails ∧ en.email_message_id = x.message_id := by
  induction emails with
  | nil =>
    intro st
    exact ⟨[], by simp [syncLoop], by intro en hen; cases hen⟩
  | cons e es ih =>
    intro st
    simp only [syncLoop]
    cases hb : ledgerHas st.session e.message_id with
    | true =>
      obtain ⟨tail, ht, hall⟩ := ih (processEmail soupOf now uid e st)
      have ht2 : (syncLoop soupOf now uid es (processEmail soupOf now uid e st)).session.ledger
          = st.session.ledger ++ tail := by
        rw [ht, processEmail_skip soupOf now uid e st hb]
      refine ⟨tail, ht2, ?_⟩
      intro en hen
      obtain ⟨x, hx, hxid⟩ := hall en hen
      exact ⟨x, List.mem_cons_of_mem _ hx, hxid⟩
    | false =>
      obtain ⟨en, hl, hid, _⟩ := processEmail_fresh soupOf now uid e st hb
      obtain ⟨tail, ht, hall⟩ := ih (processEmail soupOf now uid e st)
      refine ⟨en :: tail, ?_, ?_⟩
      · rw [ht, hl, List.append_assoc]
        rfl
      · intro x hx
        rcases List.mem_cons.mp hx with rfl | hx
        · exact ⟨e, List.mem_cons_self e es, hid⟩
        · obtain ⟨y, hy, hyid⟩ := hall x hx
          exact ⟨y, List.mem_cons_of_mem _ hy, hyid⟩

/-- C2: confirmed.  In a completed run over distinct pulled messages, a
message whose id is not yet in the ledger gets exactly one audit entry,
carrying status `success` exactly when extraction and reconciliation (at
the session state reached when the message is processed) both succeed; a
message already in the ledger gets no new entry. -/
theorem C2_audit_completeness (soupOf : String → HtmlDoc) (now : PyDateTime)
    (uid : Nat) (pre post : List EmailMsg) (e : EmailMsg) (db0 : DbState)
    (hnd : ((pre ++ e :: post).map (fun x => x.message_id)).Nodup) :
    (ledgerHas db0 e.message_id = false →
      ∃ en, entriesFor (syncOrders soupOf now uid (pre ++ e :: post) none db0).2.ledger
              e.message_id = [en] ∧
        en.email_message_id = e.message_id ∧
        (en.processing_status = "success" ↔
          msgOk soupOf now uid e
            (syncLoop soupOf now uid pre { stats := initStats, session := db0 }).session
            = true)) ∧
    (ledgerHas db0 e.message_id = true →
      entriesFor (syncOrders soupOf now uid (pre ++ e :: post) none db0).2.ledger
          e.message_id = entriesFor db0.ledger e.message_id) := by
  rw [List.map_append, List.nodup_append] at hnd
  obtain ⟨hnp, hne, hdisj⟩ := hnd
  have hpost : e.message_id ∉ post.map (fun x => x.message_id) := by
    rw [List.map_cons] at hne
    exact (List.nodup_cons.mp hne).1
  have hpre : e.message_id ∉ pre.map (fun x => x.message_id) := by
    intro hmem
    exact hdisj hmem (by rw [List.map_cons]; exact List.mem_cons_self _ _)
  obtain ⟨tailPre, htPre, hallPre⟩ :=
    syncLoop_ledger_suffix soupOf now uid pre { stats := initStats, session := db0 }
  have htPre2 : (syncLoop soupOf now uid pre
      { stats := initStats, session := db0 }).session.ledger
      = db0.ledger ++ tailPre := htPre
  have htailPreIds : ∀ en ∈ tailPre, en.email_message_id ≠ e.message_id := by
    intro en hen heq
    obtain ⟨x, hx, hxid⟩ := hallPre en hen
    exact hpre (List.mem_map.mpr ⟨x, hx, by rw [← hxid, heq]⟩)
  have hHasPre : ledgerHas (syncLoop soupOf now uid pre
      { stats := initStats, session := db0 }).session e.message_id
      = ledgerHas db0 e.message_id := by
    unfold ledgerHas
    rw [htPre2, List.any_append]
    have hfa : tailPre.any (fun en => en.email_message_id == e.message_id) = false := by
      cases hA : tailPre.any (fun en => en.email_message_id == e.message_id) with
      | false => rfl
      | true =>
        obtain ⟨en, hen, hq⟩ := List.any_eq_true.mp hA
        exact absurd (by simpa using hq) (htailPreIds en hen)
    rw [hfa, Bool.or_false]
  unfold syncOrders
  dsimp only
  rw [syncLoop_append]
  simp only [syncLoop]
  cases hb : ledgerHas db0 e.message_id with
  | false =>
    refine ⟨?_, ?_⟩
    swap
    · intro h; exact absurd h (by decide)
    intro _
    have hfresh : ledgerHas (syncLoop soupOf now uid pre
        { stats := initStats, session := db0 }).session e.message_id = false := by
      rw [hHasPre, hb]
    obtain ⟨en, hl, hid, hiff⟩ := processEmail_fresh soupOf now uid e _ hfresh
    obtain ⟨tailPost, htPost, hallPost⟩ :=
      syncLoop_ledger_suffix soupOf now uid post
        (processEmail soupOf now uid e
          (syncLoop soupOf now uid pre { stats := initStats, session := db0 }))
    have htailPostIds : ∀ x ∈ tailPost, x.email_message_id ≠ e.message_id := by
      intro x hx heq
      obtain ⟨y, hy, hyid⟩ := hallPost x hx
      exact hpost (List.mem_map.mpr ⟨y, hy, by rw [← hyid, heq]⟩)
    refine ⟨en, ?_, hid, hiff⟩
    rw [htPost, hl, htPre2]
    rw [entriesFor_append, entriesFor_append, entriesFor_append]
    rw [ledgerHas_false_entries db0 e.message_id hb]
    rw [entriesFor_nil_of tailPre _ htailPreIds,
        entriesFor_nil_of tailPost _ htailPostIds]
    simp [entriesFor, hid]
  | true =>
    refine ⟨?_, ?_⟩
    · intro h; exact absurd h (by decide)
    intro _
    have hhave : ledgerHas (syncLoop soupOf now uid pre
        { stats := initStats, session := db0 }).session e.message_id = true := by
      rw [hHasPre, hb]
    obtain ⟨tailPost, htPost, hallPost⟩ :=
      syncLoop_ledger_suffix soupOf now uid post
        (processEmail soupOf now uid e
          (syncLoop soupOf now uid pre { stats := initStats, session := db0 }))
    have htailPostIds : ∀ x ∈ tailPost, x.email_message_id ≠ e.message_id := by
      intro x hx heq
      obtain ⟨y, hy, hyid⟩ := hallPost x hx
      exact hpost (List.mem_map.mpr ⟨y, hy, by rw [← hyid, heq]⟩)
    have hsess : (processEmail soupOf now uid e
        (syncLoop soupOf now uid pre { stats := initStats, session := db0 })).session
        = (syncLoop soupOf now uid pre { stats := initStats, session := db0 }).session := by
      rw [processEmail_skip soupOf now uid e _ hhave]
    rw [htPost, hsess, htPre2]
    rw [entriesFor_append, entriesFor_append]
    rw [entriesFor_nil_of tailPre _ htailPreIds,
        entriesFor_nil_of tailPost _ htailPostIds]
    simp

/-- C2 witness: a one-message run over an empty store; the message parses
to nothing, so the unique audit entry is a failure entry. -/
theorem C2_audit_completeness_witness :
    ((([] ++ emailC2 :: []) : List EmailMsg).map (fun x => x.message_id)).Nodup ∧
    ledgerHas dbEmpty emailC2.message_id = false ∧
    (∃ en, entriesFor (syncOrders soupEmpty nowC2 1 ([] ++ emailC2 :: []) none
            dbEmpty).2.ledger emailC2.message_id = [en] ∧
      en.email_message_id = emailC2.message_id ∧
      (en.processing_status = "success" ↔
        msgOk soupEmpty nowC2 1 emailC2
          (syncLoop soupEmpty nowC2 1 [] { stats := initStats, session := dbEmpty }).session
          = true)) :=
  ⟨by decide, by decide,
   (C2_audit_completeness soupEmpty nowC2 1 [] [] emailC2 dbEmpty (by decide)).1
     (by decide)⟩
